import Mathlib

set_option maxHeartbeats 1600000
set_option maxRecDepth 20000

/-
Verification of the Mesh2Distance distance-field engine.

The Go sources are shallowly embedded over exact rationals: float32 and
float64 arithmetic is idealized as arithmetic in the field of rationals.
A signed distance produced by the code has the form s * sqrt q with
s in the set containing -1 and 1, and q a nonnegative rational; such a
value is represented exactly by the pair (s, q) in the structure SDist
below, since comparisons and equalities of signed distances used by the
code reduce to comparisons of the sign and of the squared magnitude.
-/

namespace M2D

/-- Vec3 from src/vec/vec.go: a 3-component vector, components idealized
as rationals. The Go array indices 0, 1, 2 are the fields x, y, z. -/
structure Vec3 where
  x : ℚ
  y : ℚ
  z : ℚ
  deriving DecidableEq, Repr

/-- Add from vec.go. -/
def add (a b : Vec3) : Vec3 := ⟨a.x + b.x, a.y + b.y, a.z + b.z⟩

/-- Sub from vec.go. -/
def sub (a b : Vec3) : Vec3 := ⟨a.x - b.x, a.y - b.y, a.z - b.z⟩

/-- Dot from vec.go. -/
def dot (a b : Vec3) : ℚ := a.x * b.x + a.y * b.y + a.z * b.z

/-- Mul from vec.go: component-wise product. -/
def mul (a b : Vec3) : Vec3 := ⟨a.x * b.x, a.y * b.y, a.z * b.z⟩

/-- Scale from vec.go. -/
def scale (a : Vec3) (b : ℚ) : Vec3 := ⟨a.x * b, a.y * b, a.z * b⟩

/-- Dot2 from vec.go: squared norm. -/
def dot2 (a : Vec3) : ℚ := a.x * a.x + a.y * a.y + a.z * a.z

/-- Cross from vec.go. -/
def cross (a b : Vec3) : Vec3 :=
  ⟨a.y * b.z - a.z * b.y, a.z * b.x - a.x * b.z, a.x * b.y - a.y * b.x⟩

/-- Sign from vec.go: 1 for positive, -1 for negative, 0 for zero. -/
def sign (a : ℚ) : ℚ := if a > 0 then 1 else if a < 0 then -1 else 0

/-- Clamp from vec.go (the two if branches in source order). -/
def clamp (v lo hi : ℚ) : ℚ := if v > hi then hi else if v < lo then lo else v

/-- Saturate from vec.go. -/
def saturate (v : ℚ) : ℚ := clamp v 0 1

/-- Min3 from vec.go, on rationals. -/
def min3q (a b c : ℚ) : ℚ := min a (min b c)

/-- Max3 from vec.go, on rationals. -/
def max3q (a b c : ℚ) : ℚ := max a (max b c)

/-- A signed distance value s * sqrt q, kept as the exact pair (s, q).
The pair is normalized so that a zero magnitude has sign 1, matching the
fact that the floating values +0.0 and -0.0 are equal. -/
structure SDist where
  sign : ℚ
  sq : ℚ
  deriving DecidableEq, Repr

/-- Normalizing constructor for SDist: s * sqrt 0 = 0 regardless of s. -/
def mkSDist (s q : ℚ) : SDist := if q = 0 then ⟨1, 0⟩ else ⟨s, q⟩

/-- Real negation on SDist values: -(s * sqrt q) = (-s) * sqrt q. -/
def sdNeg (d : SDist) : SDist := mkSDist (-d.sign) d.sq

/-- Sign factor of the distance function in src/src/mesh.go lines 151-156:
-1 when dot(n, pa) is positive, else 1, with n = cross(ba, ac). -/
def distSign (p a b c : Vec3) : ℚ :=
  if dot (cross (sub b a) (sub a c)) (sub p a) > 0 then -1 else 1

/-- Region test sum of the distance function in src/src/mesh.go lines
158-160: all three terms are anchored at pa exactly as in the source. -/
def regionSum (p a b c : Vec3) : ℚ :=
  sign (dot (cross (sub b a) (cross (sub b a) (sub a c))) (sub p a)) +
  sign (dot (cross (sub c b) (cross (sub b a) (sub a c))) (sub p a)) +
  sign (dot (cross (sub a c) (cross (sub b a) (sub a c))) (sub p a))

/-- Squared distance to one edge as in src/src/mesh.go lines 162-164:
dot2(scale(e, saturate(dot(e, pe) / dot2(e))) - pe). -/
def edgeSq (e pe : Vec3) : ℚ :=
  dot2 (sub (scale e (saturate (dot e pe / dot2 e))) pe)

/-- Squared perpendicular distance to the plane, src/src/mesh.go line 167. -/
def planeSq (p a b c : Vec3) : ℚ :=
  dot (cross (sub b a) (sub a c)) (sub p a) *
    dot (cross (sub b a) (sub a c)) (sub p a) /
    dot2 (cross (sub b a) (sub a c))

/-- The signed point-to-triangle distance, src/src/mesh.go lines 142-168,
as the exact pair (sign, squared magnitude). -/
def distance (p a b c : Vec3) : SDist :=
  if regionSum p a b c < 2 then
    mkSDist (distSign p a b c)
      (min3q (edgeSq (sub b a) (sub p a))
             (edgeSq (sub c b) (sub p b))
             (edgeSq (sub a c) (sub p c)))
  else
    mkSDist (distSign p a b c) (planeSq p a b c)

/-- Triangle from src/src/mesh.go: three vertex indices (uint32 as ℕ). -/
def Triangle : Type := ℕ × ℕ × ℕ

instance : DecidableEq Triangle := by
  unfold Triangle
  infer_instance

/-- Mesh from src/src/mesh.go: vertices, triangles and the bounding box. -/
structure Mesh where
  Vertices : List Vec3
  Triangles : List Triangle
  Min : Vec3
  Max : Vec3
  deriving DecidableEq

/-- Vertex lookup m.Vertices[i]. Go panics on an out-of-range index; the
embedding totalizes with the zero vector, and every use below stays in
range. -/
def vert (m : Mesh) (i : ℕ) : Vec3 := m.Vertices.getD i ⟨0, 0, 0⟩

/-- Signed distance from p to the triangle t of the mesh, as in the body
of the loops of Mesh.distance and distanceUsingList. -/
def triDistance (m : Mesh) (p : Vec3) (t : Triangle) : SDist :=
  distance p (vert m t.1) (vert m t.2.1) (vert m t.2.2)

/-- One update of the running minimum in src/src/mesh.go lines 291-293:
if abs d < abs minDistance then minDistance = d. The initial value
math32.Inf(1) is the case none; for finite values the comparison of
absolute values is the comparison of squared magnitudes. -/
def updateMin (best : Option SDist) (d : SDist) : Option SDist :=
  match best with
  | none => some d
  | some b => if d.sq < b.sq then some d else some b

/-- Loop of Mesh.distance, src/src/mesh.go lines 280-294, with the early
return 0.0 when a triangle with zero distance is met. -/
def meshDistanceGo (m : Mesh) (p : Vec3) : List Triangle → Option SDist → Option SDist
  | [], best => best
  | t :: ts, best =>
    let d := triDistance m p t
    if d.sq = 0 then some (mkSDist 1 0)
    else meshDistanceGo m p ts (updateMin best d)

/-- Mesh.distance from src/src/mesh.go lines 277-297: brute force signed
distance to the closest triangle; none is the initial +infinity, returned
unchanged when the mesh has no triangle. The test helper
distanceBruteForce of the test file has this same body. -/
def meshDistance (m : Mesh) (p : Vec3) : Option SDist :=
  meshDistanceGo m p m.Triangles none

/-- Triangle bounding box, getTriangleAABB from src/src/mesh.go. -/
def getTriangleAABB (p0 p1 p2 : Vec3) : Vec3 × Vec3 :=
  (⟨min3q p0.x p1.x p2.x, min3q p0.y p1.y p2.y, min3q p0.z p1.z p2.z⟩,
   ⟨max3q p0.x p1.x p2.x, max3q p0.y p1.y p2.y, max3q p0.z p1.z p2.z⟩)

/-- List of the naturals lo, lo+1, ..., hi (empty when hi < lo). -/
def natRange (lo hi : ℕ) : List ℕ :=
  (List.range (hi + 1 - lo)).map (fun k => lo + k)

/-- List of the integers lo, lo+1, ..., hi (empty when hi < lo). -/
def intRange (lo hi : ℤ) : List ℤ :=
  (List.range (hi + 1 - lo).toNat).map (fun (k : ℕ) => lo + (k : ℤ))

/-- Flat concatenation of the images, used to spell the nested cell loops
as one list of linear cell indices. -/
def flatMapL {α β : Type} (f : α → List β) : List α → List β
  | [] => []
  | a :: as => f a ++ flatMapL f as

/-- The Go conversion uint(q) of a nonnegative float: truncation. All the
uses below apply it to nonnegative values. -/
def natIdx (q : ℚ) : ℕ := (Int.floor q).toNat

/-- Cells visited by the nested loops of createTriangleLists,
src/src/mesh.go lines 60-66: z outermost, then y, then x, each axis from
max(0, minIdx) to min(dim-1, maxIdx), linear index x + y*w + z*w*h. -/
def cellsOfRange (width height depth : ℕ) (minIdx maxIdx : ℕ × ℕ × ℕ) : List ℕ :=
  flatMapL (fun zz =>
    flatMapL (fun yy =>
      (natRange minIdx.1 (min (width - 1) maxIdx.1)).map (fun xx =>
        xx + yy * width + zz * (width * height)))
      (natRange minIdx.2.1 (min (height - 1) maxIdx.2.1)))
    (natRange minIdx.2.2 (min (depth - 1) maxIdx.2.2))

/-- Appending a triangle index to the list of every cell in cells, as the
innermost statement of createTriangleLists does. -/
def addTriangle (L : ℕ → List ℕ) (cells : List ℕ) (tIdx : ℕ) : ℕ → List ℕ :=
  cells.foldl (fun acc c => fun i => if i = c then acc i ++ [tIdx] else acc i) L

/-- Body of createTriangleLists from src/src/mesh.go lines 43-67 for one
triangle: the box corners are mapped with the factor dim (the field s of
the source) over the mesh own bounding box, truncated by the uint
conversion. -/
def triangleCells (m : Mesh) (width height depth : ℕ) (t : Triangle) : List ℕ :=
  let v0 := vert m t.1
  let v1 := vert m t.2.1
  let v2 := vert m t.2.2
  let box := getTriangleAABB v0 v1 v2
  let minIdx : ℕ × ℕ × ℕ :=
    (natIdx ((box.1.x - m.Min.x) / (m.Max.x - m.Min.x) * width),
     natIdx ((box.1.y - m.Min.y) / (m.Max.y - m.Min.y) * height),
     natIdx ((box.1.z - m.Min.z) / (m.Max.z - m.Min.z) * depth))
  let maxIdx : ℕ × ℕ × ℕ :=
    (natIdx ((box.2.x - m.Min.x) / (m.Max.x - m.Min.x) * width),
     natIdx ((box.2.y - m.Min.y) / (m.Max.y - m.Min.y) * height),
     natIdx ((box.2.z - m.Min.z) / (m.Max.z - m.Min.z) * depth))
  cellsOfRange width height depth minIdx maxIdx

/-- Loop of createTriangleLists over the enumerated triangles. -/
def createTriangleListsGo (m : Mesh) (width height depth : ℕ) :
    List Triangle → ℕ → (ℕ → List ℕ) → (ℕ → List ℕ)
  | [], _, L => L
  | t :: ts, idx, L =>
      createTriangleListsGo m width height depth ts (idx + 1)
        (addTriangle L (triangleCells m width height depth t) idx)

/-- createTriangleLists from src/src/mesh.go lines 40-70: the spatial
index as a map from linear cell index to the triangle indices appended
there. The grid box is the mesh own bounding box in this variant. -/
def createTriangleLists (m : Mesh) (width height depth : ℕ) : ℕ → List ℕ :=
  createTriangleListsGo m width height depth m.Triangles 0 (fun _ => [])

/-- Cells visited by the nested loops of the grid variant of
createTriangleLists (the newest source file), where the index bounds are
ints: z, y, x from max(0, minIdx) to min(dim-1, maxIdx). -/
def cellsOfRangeGrid (width height depth : ℕ) (minIdx maxIdx : ℤ × ℤ × ℤ) : List ℕ :=
  flatMapL (fun zz =>
    flatMapL (fun yy =>
      (intRange (max 0 minIdx.1) (min ((width : ℤ) - 1) maxIdx.1)).map (fun xx =>
        ((xx + yy * (width : ℤ) + zz * ((width : ℤ) * (height : ℤ)) : ℤ)).toNat))
      (intRange (max 0 minIdx.2.1) (min ((height : ℤ) - 1) maxIdx.2.1)))
    (intRange (max 0 minIdx.2.2) (min ((depth : ℤ) - 1) maxIdx.2.2))

/-- Cell index range of one triangle in the grid variant of
createTriangleLists: floor for the minimum and ceil for the maximum of
(corner - gridMin) / (gridMax - gridMin) * (dim - 1). -/
def triangleCellsGrid (m : Mesh) (width height depth : ℕ) (gridMin gridMax : Vec3)
    (t : Triangle) : List ℕ :=
  let v0 := vert m t.1
  let v1 := vert m t.2.1
  let v2 := vert m t.2.2
  let box := getTriangleAABB v0 v1 v2
  let minIdx : ℤ × ℤ × ℤ :=
    (Int.floor ((box.1.x - gridMin.x) / (gridMax.x - gridMin.x) * ((width : ℚ) - 1)),
     Int.floor ((box.1.y - gridMin.y) / (gridMax.y - gridMin.y) * ((height : ℚ) - 1)),
     Int.floor ((box.1.z - gridMin.z) / (gridMax.z - gridMin.z) * ((depth : ℚ) - 1)))
  let maxIdx : ℤ × ℤ × ℤ :=
    (Int.ceil ((box.2.x - gridMin.x) / (gridMax.x - gridMin.x) * ((width : ℚ) - 1)),
     Int.ceil ((box.2.y - gridMin.y) / (gridMax.y - gridMin.y) * ((height : ℚ) - 1)),
     Int.ceil ((box.2.z - gridMin.z) / (gridMax.z - gridMin.z) * ((depth : ℚ) - 1)))
  cellsOfRangeGrid width height depth minIdx maxIdx

/-- Loop of the grid variant of createTriangleLists. -/
def createTriangleListsGridGo (m : Mesh) (width height depth : ℕ) (gridMin gridMax : Vec3) :
    List Triangle → ℕ → (ℕ → List ℕ) → (ℕ → List ℕ)
  | [], _, L => L
  | t :: ts, idx, L =>
      createTriangleListsGridGo m width height depth gridMin gridMax ts (idx + 1)
        (addTriangle L (triangleCellsGrid m width height depth gridMin gridMax t) idx)

/-- createTriangleLists of the newest source file (part_002 lines
98-127): explicit grid box, floor and ceil of the fractional index with
the factor dim - 1. -/
def createTriangleListsGrid (m : Mesh) (width height depth : ℕ) (gridMin gridMax : Vec3) :
    ℕ → List ℕ :=
  createTriangleListsGridGo m width height depth gridMin gridMax m.Triangles 0 (fun _ => [])

/-- State of the expanding shell search of distanceUsingList: the visited
triangle set, the foundTriangles flag and the running minimum (none for
the initial +infinity). -/
structure LState where
  visited : List ℕ
  found : Bool
  minD : Option SDist
  deriving DecidableEq

/-- Handling of one triangle index met in a cell list, src/src/mesh.go
lines 314-340: skip if visited, else mark visited, set foundTriangles,
compute the distance, return 0.0 at an exact zero (the error case stops
the whole query), else update the running minimum. -/
def stepTriangle (m : Mesh) (p : Vec3) (st : Except SDist LState) (tIdx : ℕ) :
    Except SDist LState :=
  match st with
  | .error r => .error r
  | .ok s =>
    if tIdx ∈ s.visited then .ok s
    else
      let d := triDistance m p (m.Triangles.getD tIdx (0, 0, 0))
      if d.sq = 0 then .error (mkSDist 1 0)
      else .ok ⟨tIdx :: s.visited, true, updateMin s.minD d⟩

/-- Scan of one layer of the cubic onion, src/src/mesh.go lines 311-343:
the whole clamped cube is rescanned, z outermost. The parameter names
follow the source signature, in which the first dimension parameter
bounds zz and the third bounds xx. -/
def scanLayer (m : Mesh) (p : Vec3) (depth height width x y z : ℕ)
    (triangleLists : ℕ → List ℕ) (layer : ℕ) (s : LState) : Except SDist LState :=
  (flatMapL (fun zz =>
    flatMapL (fun yy =>
      (natRange (x - layer) (min (x + layer) (width - 1))).map (fun xx =>
        xx + yy * width + zz * (width * height)))
      (natRange (y - layer) (min (y + layer) (height - 1))))
    (natRange (z - layer) (min (z + layer) (depth - 1)))).foldl
    (fun st c => (triangleLists c).foldl (stepTriangle m p) st) (.ok s)

/-- Outer loop for !foundTriangles of distanceUsingList with explicit
fuel: none means the fuel ran out with the loop still running, some r
means the loop finished with result r (r itself is none for the untouched
initial +infinity, which cannot happen once a triangle was found). -/
def loopGo (m : Mesh) (p : Vec3) (depth height width x y z : ℕ)
    (triangleLists : ℕ → List ℕ) : ℕ → ℕ → LState → Option (Option SDist)
  | 0, _, _ => none
  | fuel + 1, layer, s =>
    if s.found then some s.minD
    else
      match scanLayer m p depth height width x y z triangleLists layer s with
      | .error r => some (some r)
      | .ok s2 => loopGo m p depth height width x y z triangleLists fuel (layer + 1) s2

/-- distanceUsingList from src/src/mesh.go lines 302-350, with fuel
bounding the number of layer iterations. The parameter order after p is
that of the source signature: depth, height, width, x, y, z. -/
def distanceUsingListFuel (m : Mesh) (p : Vec3) (depth height width x y z : ℕ)
    (triangleLists : ℕ → List ℕ) (fuel : ℕ) : Option (Option SDist) :=
  loopGo m p depth height width x y z triangleLists fuel 0 ⟨[], false, none⟩

/-- One sample of the conversion loop of calculate, src/src/mesh.go lines
487-507, 16-bit path: the flag negative is read off the original v, v is
normalized to u, rounded down (negative) or up (non-negative), clamped by
min then max, converted to uint16 and split into the two bytes t and 0xFF
and (t shifted right by 8) and 0xFF, low byte first. -/
def convertSample16 (minD maxD v : ℚ) : List ℕ :=
  let u := (v - minD) / (maxD - minD)
  let t : ℤ :=
    if v < 0 then max 0 (min (Int.floor (u * 65535)) 65535)
    else max 0 (min (Int.ceil (u * 65535)) 65535)
  [t.toNat % 256, t.toNat / 256 % 256]

/-- One sample of the conversion loop, 8-bit path: as the 16-bit path
with the scale 255, stored as one byte. -/
def convertSample8 (minD maxD v : ℚ) : List ℕ :=
  let u := (v - minD) / (maxD - minD)
  let t : ℤ :=
    if v < 0 then max 0 (min (Int.floor (u * 255)) 255)
    else max 0 (min (Int.ceil (u * 255)) 255)
  [t.toNat]

/-- The conversion loop over the whole field, 16-bit: sample i writes the
bytes 2i and 2i+1 of the output buffer, which is the flat concatenation
of the per-sample pairs in field order. -/
def convertData16 (minD maxD : ℚ) (data : List ℚ) : List ℕ :=
  flatMapL (convertSample16 minD maxD) data

/-- The conversion loop over the whole field, 8-bit. -/
def convertData8 (minD maxD : ℚ) (data : List ℚ) : List ℕ :=
  flatMapL (convertSample8 minD maxD) data

/-- Quantized integer as the claim words it: u = (v - minD)/(maxD - minD),
floor of u*scale when v is negative and ceil when non-negative, clamped
into the interval from 0 to scale. -/
def specQuantize (minD maxD v : ℚ) (scaleN : ℕ) : ℤ :=
  let u := (v - minD) / (maxD - minD)
  let r := if v < 0 then Int.floor (u * scaleN) else Int.ceil (u * scaleN)
  min (max r 0) (scaleN : ℤ)

/-- Head token of an input line: the keyword v, the keyword f, or any
other first token (ignored by the loader). -/
inductive Head where
  | hv
  | hf
  | hother
  deriving DecidableEq

/-- An argument token of a v or f line, abstracted by the outcomes of the
two parses the loader applies to it: strconv.ParseFloat of the token
(value and error-is-nil flag; a malformed token parses to 0 with an
error, which the loader discards), and strconv.Atoi of the text before
the first slash (same convention). -/
structure Arg where
  float : ℚ
  floatOk : Bool
  int : ℤ
  intOk : Bool
  deriving DecidableEq

/-- An input line after TrimSpace and Fields: blank collapses the empty
line, the comment line and the line with no token. -/
inductive ObjLine where
  | blank
  | cmd (h : Head) (args : List Arg)
  deriving DecidableEq

/-- The load error cases of LoadOBJ: unexpected number of vertices, only
triangular faces supported, mesh is not watertight. -/
inductive LoadErr where
  | vertexCount
  | faceArity
  | notWatertight
  deriving DecidableEq

/-- The Go conversion uint32(n) of an int. -/
def u32 (n : ℤ) : ℕ := (n % 4294967296).toNat

/-- An undirected edge key: the index pair sorted as in LoadOBJ (swap
when a > b). -/
def sortEdge (a b : ℕ) : ℕ × ℕ := if a > b then (b, a) else (a, b)

/-- The three undirected edge keys of a face, in source order. -/
def triEdges (t : Triangle) : List (ℕ × ℕ) :=
  [sortEdge t.1 t.2.1, sortEdge t.2.1 t.2.2, sortEdge t.2.2 t.1]

/-- Largest finite float64, the value of the sentinel posBigfloat64 of
the newest source file (math.Nextafter from +infinity): the numeral is
exactly (2 pow 53 - 1) * 2 pow 971, spelled out so that it reduces
without deep recursion. -/
def posBig : ℚ :=
  179769313486231570814527423731704356798070567525844996598917476803157260780028538760589558632766878171540458953514382464234321326889464182768467546703537516986049910576551282076245490090389328944075868508455133942304583236903222948165808559332123348274797826204144723168738177180919299881250404026184124858368

/-- State of the LoadOBJ scan: vertices, triangles, running bounding box
and the multiset of undirected edge keys (the edgeCount map of the
source, represented by the list of its increments, so that the count of
a key is the number of its occurrences in the list). -/
structure LoadState where
  vertices : List Vec3
  triangles : List Triangle
  minV : Vec3
  maxV : Vec3
  edges : List (ℕ × ℕ)
  deriving DecidableEq

/-- One line of the LoadOBJ scan, from the newest source file (part_002
lines 148-228): a v line must carry three coordinates, parsed with the
error discarded, and widens the running bounding box; an f line must
carry three references, parsed with the error discarded, converted from
1-based to 0-based through uint32, and accumulates its three undirected
edge keys. -/
def loadStep (s : LoadState) : ObjLine → Except LoadErr LoadState
  | .blank => .ok s
  | .cmd .hother _ => .ok s
  | .cmd .hv args =>
    match args with
    | [ax, ay, az] =>
      .ok { vertices := s.vertices ++ [⟨ax.float, ay.float, az.float⟩],
            triangles := s.triangles,
            minV := ⟨min s.minV.x ax.float, min s.minV.y ay.float, min s.minV.z az.float⟩,
            maxV := ⟨max s.maxV.x ax.float, max s.maxV.y ay.float, max s.maxV.z az.float⟩,
            edges := s.edges }
    | _ => .error .vertexCount
  | .cmd .hf args =>
    match args with
    | [a0, a1, a2] =>
      let t : Triangle := (u32 (a0.int - 1), u32 (a1.int - 1), u32 (a2.int - 1))
      .ok { vertices := s.vertices,
            triangles := s.triangles ++ [t],
            minV := s.minV,
            maxV := s.maxV,
            edges := s.edges ++ triEdges t }
    | _ => .error .faceArity

/-- The scan loop of LoadOBJ over the input lines. -/
def loadGo : LoadState → List ObjLine → Except LoadErr LoadState
  | s, [] => .ok s
  | s, l :: ls =>
    match loadStep s l with
    | .error e => .error e
    | .ok s2 => loadGo s2 ls

/-- Initial LoadOBJ state: bounding box at the sentinels. -/
def loadInit : LoadState :=
  ⟨[], [], ⟨posBig, posBig, posBig⟩, ⟨-posBig, -posBig, -posBig⟩, []⟩

/-- LoadOBJ from the newest source file (part_002 lines 131-228): scan
the lines, then fail with the watertight error unless every accumulated
undirected edge key occurs exactly twice. -/
def loadOBJ (lines : List ObjLine) : Except LoadErr Mesh :=
  match loadGo loadInit lines with
  | .error e => .error e
  | .ok s =>
    if s.edges.all (fun k => s.edges.count k == 2) then
      .ok ⟨s.vertices, s.triangles, s.minV, s.maxV⟩
    else .error .notWatertight

/-- Edge keys accumulated across all well-formed face lines of the
input, as the claim words it. -/
def edgesOfInput (lines : List ObjLine) : List (ℕ × ℕ) :=
  flatMapL (fun l =>
    match l with
    | ObjLine.cmd .hf [a0, a1, a2] =>
      triEdges (u32 (a0.int - 1), u32 (a1.int - 1), u32 (a2.int - 1))
    | _ => []) lines

/-- Input whose v lines and f lines each carry exactly three argument
tokens (the Go token count 4 with the keyword). -/
def wfInput (lines : List ObjLine) : Bool :=
  lines.all (fun l =>
    match l with
    | ObjLine.cmd .hv args => args.length == 3
    | ObjLine.cmd .hf args => args.length == 3
    | _ => true)

/-- Component i of a triangle, as the Go indexings triangle[i mod 3]
resolve. -/
def tget (t : Triangle) (i : ℕ) : ℕ :=
  match i with
  | 0 => t.1
  | 1 => t.2.1
  | _ => t.2.2

/-- Inner loop of sameWindingOrder over triangleB: the first j with
triangleB[j] = s0 decides the result from triangleB[(j+off) mod 3]; none
when no entry matches (the Go control flow then falls back to the outer
loop). -/
def swInner (tB : Triangle) (s0 s1 : ℕ) (off : ℕ) : Option Bool :=
  if tB.1 = s0 then some (decide (tget tB (off % 3) = s1))
  else if tB.2.1 = s0 then some (decide (tget tB ((1 + off) % 3) = s1))
  else if tB.2.2 = s0 then some (decide (tget tB ((2 + off) % 3) = s1))
  else none

/-- One outer iteration of sameWindingOrder at position i of triangleA:
when triangleA[i] = s0, the offset is 2 if triangleA follows s0 by s1
(the other triangle should then walk s1 to s0) and 1 otherwise. -/
def swStep (tA tB : Triangle) (s0 s1 : ℕ) (i : ℕ) : Option Bool :=
  if tget tA i = s0 then
    if tget tA ((i + 1) % 3) = s1 then swInner tB s0 s1 2 else swInner tB s0 s1 1
  else none

/-- sameWindingOrder from src/src/mesh.go lines 188-214, with the fall
through to false when no return fires. -/
def sameWindingOrder (tA tB : Triangle) (shared : ℕ × ℕ) : Bool :=
  (((swStep tA tB shared.1 shared.2 0).orElse (fun _ =>
      swStep tA tB shared.1 shared.2 1)).orElse (fun _ =>
      swStep tA tB shared.1 shared.2 2)).getD false

/-- Triangle t walks the directed edge u to v along its cyclic vertex
order. -/
def traverses (t : Triangle) (u v : ℕ) : Prop :=
  (t.1 = u ∧ t.2.1 = v) ∨ (t.2.1 = u ∧ t.2.2 = v) ∨ (t.2.2 = u ∧ t.1 = v)

/-- Vertex u occurs in triangle t. -/
def memTri (t : Triangle) (u : ℕ) : Prop :=
  t.1 = u ∨ t.2.1 = u ∨ t.2.2 = u

/-- The three entries of t are pairwise distinct. -/
def nodupTri (t : Triangle) : Prop :=
  t.1 ≠ t.2.1 ∧ t.1 ≠ t.2.2 ∧ t.2.1 ≠ t.2.2

instance (t : Triangle) (u v : ℕ) : Decidable (traverses t u v) := by
  unfold traverses
  infer_instance

instance (t : Triangle) (u : ℕ) : Decidable (memTri t u) := by
  unfold memTri
  infer_instance

instance (t : Triangle) : Decidable (nodupTri t) := by
  unfold nodupTri
  infer_instance

/-- C10 -/
theorem c10_empty_mesh_infinity (verts : List Vec3) (mn mx p : Vec3) :
    meshDistance ⟨verts, [], mn, mx⟩ p = none := rfl

theorem flatMapL_two_get (f : ℚ → List ℕ) (hf : ∀ x, ∃ u w, f x = [u, w]) :
    ∀ (data : List ℚ) (i : ℕ) (v : ℚ), data[i]? = some v →
      (flatMapL f data)[2 * i]? = (f v)[0]? ∧ (flatMapL f data)[2 * i + 1]? = (f v)[1]?
  | [], i, v, h => by simp at h
  | d :: ds, 0, v, h => by
    simp at h
    obtain ⟨u, w, hfw⟩ := hf d
    subst h
    simp [flatMapL, hfw]
  | d :: ds, i + 1, v, h => by
    simp at h
    obtain ⟨u, w, hfw⟩ := hf d
    have ih := flatMapL_two_get f hf ds i v h
    simp only [flatMapL, hfw, List.cons_append, List.nil_append]
    have h1 : 2 * (i + 1) = 2 * i + 1 + 1 := by ring
    rw [h1]
    rw [List.getElem?_cons_succ, List.getElem?_cons_succ, List.getElem?_cons_succ,
      List.getElem?_cons_succ]
    exact ⟨by simpa using ih.1, by simpa using ih.2⟩

theorem flatMapL_one_get (f : ℚ → List ℕ) (hf : ∀ x, ∃ u, f x = [u]) :
    ∀ (data : List ℚ) (i : ℕ) (v : ℚ), data[i]? = some v →
      (flatMapL f data)[i]? = (f v)[0]?
  | [], i, v, h => by simp at h
  | d :: ds, 0, v, h => by
    simp at h
    obtain ⟨u, hfw⟩ := hf d
    subst h
    simp [flatMapL, hfw]
  | d :: ds, i + 1, v, h => by
    simp at h
    obtain ⟨u, hfw⟩ := hf d
    have ih := flatMapL_one_get f hf ds i v h
    simp only [flatMapL, hfw, List.cons_append, List.nil_append]
    rw [List.getElem?_cons_succ]
    exact ih

theorem convertSample16_eq (minD maxD v : ℚ) :
    convertSample16 minD maxD v =
      [(specQuantize minD maxD v 65535).toNat % 256,
       (specQuantize minD maxD v 65535).toNat / 256] := by
  unfold convertSample16 specQuantize
  dsimp only
  push_cast
  split_ifs with h <;> simp only [List.cons.injEq, and_true] <;> constructor <;> omega

theorem convertSample8_eq (minD maxD v : ℚ) :
    convertSample8 minD maxD v = [(specQuantize minD maxD v 255).toNat] := by
  unfold convertSample8 specQuantize
  dsimp only
  push_cast
  split_ifs with h <;> simp only [List.cons.injEq, and_true] <;> omega

/-- C5 -/
theorem c5_quantizer (minD maxD : ℚ) (hlt : minD < maxD) (v : ℚ) (data : List ℚ) (i : ℕ)
    (hv : data[i]? = some v) :
    convertSample16 minD maxD v =
      [(specQuantize minD maxD v 65535).toNat % 256,
       (specQuantize minD maxD v 65535).toNat / 256] ∧
    convertSample8 minD maxD v = [(specQuantize minD maxD v 255).toNat] ∧
    (convertData16 minD maxD data)[2 * i]? =
      some ((specQuantize minD maxD v 65535).toNat % 256) ∧
    (convertData16 minD maxD data)[2 * i + 1]? =
      some ((specQuantize minD maxD v 65535).toNat / 256) ∧
    (convertData8 minD maxD data)[i]? = some ((specQuantize minD maxD v 255).toNat) := by
  have hf2 : ∀ x, ∃ u w, convertSample16 minD maxD x = [u, w] :=
    fun x => ⟨_, _, convertSample16_eq minD maxD x⟩
  have hf1 : ∀ x, ∃ u, convertSample8 minD maxD x = [u] :=
    fun x => ⟨_, convertSample8_eq minD maxD x⟩
  have h2 := flatMapL_two_get _ hf2 data i v hv
  have h1 := flatMapL_one_get _ hf1 data i v hv
  refine ⟨convertSample16_eq minD maxD v, convertSample8_eq minD maxD v, ?_, ?_, ?_⟩
  · rw [convertData16, h2.1, convertSample16_eq]
    rfl
  · rw [convertData16, h2.2, convertSample16_eq]
    rfl
  · rw [convertData8, h1, convertSample8_eq]
    rfl

/-- C5 witness -/
theorem c5_quantizer_witness :
    (0:ℚ) < 1 ∧ ([(-1:ℚ)/2, 1/4] : List ℚ)[1]? = some (1/4 : ℚ) ∧
    (convertData16 0 1 [(-1:ℚ)/2, 1/4])[2 * 1]? =
      some ((specQuantize 0 1 (1/4) 65535).toNat % 256) := by
  refine ⟨by norm_num, by norm_num, ?_⟩
  exact (c5_quantizer 0 1 (by norm_num) (1/4) [(-1:ℚ)/2, 1/4] 1 (by norm_num)).2.2.1

theorem dot2_nonneg (v : Vec3) : 0 ≤ dot2 v := by
  obtain ⟨x, y, z⟩ := v
  simp only [dot2]
  nlinarith [mul_self_nonneg x, mul_self_nonneg y, mul_self_nonneg z]

theorem dot2_eq_zero (v : Vec3) : dot2 v = 0 ↔ v = ⟨0, 0, 0⟩ := by
  obtain ⟨x, y, z⟩ := v
  simp only [dot2, Vec3.mk.injEq]
  constructor
  · intro h
    refine ⟨?_, ?_, ?_⟩ <;> nlinarith [mul_self_nonneg x, mul_self_nonneg y, mul_self_nonneg z]
  · rintro ⟨rfl, rfl, rfl⟩
    ring

theorem region_terms_sum (p a b c : Vec3) :
    dot (cross (sub b a) (cross (sub b a) (sub a c))) (sub p a) +
      dot (cross (sub c b) (cross (sub b a) (sub a c))) (sub p a) +
      dot (cross (sub a c) (cross (sub b a) (sub a c))) (sub p a) = 0 := by
  simp only [dot, cross, sub]
  ring

theorem sign_sum_lt (x y z : ℚ) (h : x + y + z = 0) :
    sign x + sign y + sign z < 2 := by
  unfold sign
  split_ifs <;> linarith

theorem regionSum_lt_two (p a b c : Vec3) : regionSum p a b c < 2 :=
  sign_sum_lt _ _ _ (region_terms_sum p a b c)

theorem distance_edge (p a b c : Vec3) :
    distance p a b c =
      mkSDist (distSign p a b c)
        (min3q (edgeSq (sub b a) (sub p a))
               (edgeSq (sub c b) (sub p b))
               (edgeSq (sub a c) (sub p c))) := by
  unfold distance
  rw [if_pos (regionSum_lt_two p a b c)]

theorem sat_one_sub (u : ℚ) : saturate (1 - u) = 1 - saturate u := by
  unfold saturate clamp
  split_ifs <;> linarith

theorem edgeSq_swap (p u w : Vec3) (h : dot2 (sub w u) ≠ 0) :
    edgeSq (sub u w) (sub p w) = edgeSq (sub w u) (sub p u) := by
  have hd2 : dot2 (sub u w) = dot2 (sub w u) := by
    simp only [dot2, sub]
    ring
  have hratio : dot (sub u w) (sub p w) / dot2 (sub u w) =
      1 - dot (sub w u) (sub p u) / dot2 (sub w u) := by
    rw [hd2]
    field_simp
    simp only [dot, dot2, sub]
    ring
  unfold edgeSq
  rw [hratio, sat_one_sub]
  generalize saturate (dot (sub w u) (sub p u) / dot2 (sub w u)) = s
  simp only [dot2, sub, scale]
  ring

theorem min3q_comm23 (x y z : ℚ) : min3q x z y = min3q x y z := by
  unfold min3q
  rw [min_comm z y]

theorem min3q_cases (x y z : ℚ) : min3q x y z = x ∨ min3q x y z = y ∨ min3q x y z = z := by
  unfold min3q
  rcases min_choice y z with h | h <;> rcases min_choice x (min y z) with h2 | h2 <;>
    rw [h2] <;> simp [h]

theorem distSign_swap (p a b c : Vec3)
    (h : dot (cross (sub b a) (sub a c)) (sub p a) ≠ 0) :
    distSign p b a c = -distSign p a b c := by
  have key : dot (cross (sub a b) (sub b c)) (sub p b) =
      -dot (cross (sub b a) (sub a c)) (sub p a) := by
    simp only [dot, cross, sub]
    ring
  unfold distSign
  rw [key]
  rcases h.lt_or_lt with hD | hD <;> split_ifs <;> linarith


theorem offplane_ba (p a b c : Vec3)
    (h : dot (cross (sub b a) (sub a c)) (sub p a) ≠ 0) : dot2 (sub b a) ≠ 0 := by
  intro h0
  apply h
  have hz := (dot2_eq_zero _).mp h0
  rw [hz]
  simp only [dot, cross, sub]
  ring

theorem offplane_ac (p a b c : Vec3)
    (h : dot (cross (sub b a) (sub a c)) (sub p a) ≠ 0) : dot2 (sub a c) ≠ 0 := by
  intro h0
  apply h
  have hz := (dot2_eq_zero _).mp h0
  rw [hz]
  simp only [dot, cross, sub]
  ring

theorem offplane_cb (p a b c : Vec3)
    (h : dot (cross (sub b a) (sub a c)) (sub p a) ≠ 0) : dot2 (sub c b) ≠ 0 := by
  intro h0
  apply h
  have hz := (dot2_eq_zero _).mp h0
  have hx : c.x - b.x = 0 := by
    have := congrArg Vec3.x hz
    simpa [sub] using this
  have hy : c.y - b.y = 0 := by
    have := congrArg Vec3.y hz
    simpa [sub] using this
  have hzz : c.z - b.z = 0 := by
    have := congrArg Vec3.z hz
    simpa [sub] using this
  have hcx : c.x = b.x := by linarith
  have hcy : c.y = b.y := by linarith
  have hcz : c.z = b.z := by linarith
  simp only [dot, cross, sub, hcx, hcy, hcz]
  ring


theorem edgeSq_zero_onplane (e pe : Vec3) (h0 : edgeSq e pe = 0) :
    ∃ s : ℚ, pe = scale e s := by
  unfold edgeSq at h0
  have hz := (dot2_eq_zero _).mp h0
  refine ⟨saturate (dot e pe / dot2 e), ?_⟩
  have hx := congrArg Vec3.x hz
  have hy := congrArg Vec3.y hz
  have hzz := congrArg Vec3.z hz
  simp only [sub, scale] at hx hy hzz
  obtain ⟨px, py, pz⟩ := pe
  obtain ⟨ex, ey, ez⟩ := e
  simp only [scale, Vec3.mk.injEq] at *
  refine ⟨by linarith, by linarith, by linarith⟩

theorem min_edge_ne_zero (p a b c : Vec3)
    (h : dot (cross (sub b a) (sub a c)) (sub p a) ≠ 0) :
    min3q (edgeSq (sub b a) (sub p a)) (edgeSq (sub c b) (sub p b))
      (edgeSq (sub a c) (sub p c)) ≠ 0 := by
  intro hmin
  rcases min3q_cases (edgeSq (sub b a) (sub p a)) (edgeSq (sub c b) (sub p b))
      (edgeSq (sub a c) (sub p c)) with hc | hc | hc <;> rw [hmin] at hc
  · obtain ⟨s, hs⟩ := edgeSq_zero_onplane _ _ hc.symm
    apply h
    have hx := congrArg Vec3.x hs
    have hy := congrArg Vec3.y hs
    have hz := congrArg Vec3.z hs
    simp only [sub, scale] at hx hy hz
    simp only [dot, cross, sub]
    rw [show p.x - a.x = (b.x - a.x) * s from hx,
        show p.y - a.y = (b.y - a.y) * s from hy,
        show p.z - a.z = (b.z - a.z) * s from hz]
    ring
  · obtain ⟨s, hs⟩ := edgeSq_zero_onplane _ _ hc.symm
    apply h
    have hx := congrArg Vec3.x hs
    have hy := congrArg Vec3.y hs
    have hz := congrArg Vec3.z hs
    simp only [sub, scale] at hx hy hz
    simp only [dot, cross, sub]
    have hpx : p.x = b.x + (c.x - b.x) * s := by linarith
    have hpy : p.y = b.y + (c.y - b.y) * s := by linarith
    have hpz : p.z = b.z + (c.z - b.z) * s := by linarith
    rw [hpx, hpy, hpz]
    ring
  · obtain ⟨s, hs⟩ := edgeSq_zero_onplane _ _ hc.symm
    apply h
    have hx := congrArg Vec3.x hs
    have hy := congrArg Vec3.y hs
    have hz := congrArg Vec3.z hs
    simp only [sub, scale] at hx hy hz
    simp only [dot, cross, sub]
    have hpx : p.x = c.x + (a.x - c.x) * s := by linarith
    have hpy : p.y = c.y + (a.y - c.y) * s := by linarith
    have hpz : p.z = c.z + (a.z - c.z) * s := by linarith
    rw [hpx, hpy, hpz]
    ring

/-- C3 amended -/
theorem c3_antisymmetry_offplane (p a b c : Vec3)
    (h : dot (cross (sub b a) (sub a c)) (sub p a) ≠ 0) :
    distance p b a c = sdNeg (distance p a b c) := by
  have hba := offplane_ba p a b c h
  have hac := offplane_ac p a b c h
  have hcb := offplane_cb p a b c h
  rw [distance_edge p a b c, distance_edge p b a c]
  rw [edgeSq_swap p a b hba]
  rw [edgeSq_swap p c a hac]
  rw [edgeSq_swap p b c hcb]
  rw [min3q_comm23]
  rw [distSign_swap p a b c h]
  have hq := min_edge_ne_zero p a b c h
  simp only [mkSDist, sdNeg, if_neg hq]


/-- C3 counterexample -/
theorem c3_counterexample :
    distance ⟨0, 3, -1⟩ ⟨0, 1, -1⟩ ⟨0, -1, -1⟩ ⟨0, 0, 1⟩ = ⟨1, 4⟩ ∧
    distance ⟨0, 3, -1⟩ ⟨0, -1, -1⟩ ⟨0, 1, -1⟩ ⟨0, 0, 1⟩ = ⟨1, 4⟩ ∧
    distance ⟨0, 3, -1⟩ ⟨0, -1, -1⟩ ⟨0, 1, -1⟩ ⟨0, 0, 1⟩ ≠
      sdNeg (distance ⟨0, 3, -1⟩ ⟨0, 1, -1⟩ ⟨0, -1, -1⟩ ⟨0, 0, 1⟩) := by
  with_unfolding_all decide

/-- C3 witness -/
theorem c3_antisymmetry_offplane_witness :
    dot (cross (sub ⟨0, -1, -1⟩ ⟨0, 1, -1⟩) (sub ⟨0, 1, -1⟩ ⟨0, 0, 1⟩))
      (sub ⟨-1, 0, 0⟩ ⟨0, 1, -1⟩) ≠ 0 ∧
    distance ⟨-1, 0, 0⟩ ⟨0, -1, -1⟩ ⟨0, 1, -1⟩ ⟨0, 0, 1⟩ =
      sdNeg (distance ⟨-1, 0, 0⟩ ⟨0, 1, -1⟩ ⟨0, -1, -1⟩ ⟨0, 0, 1⟩) :=
  ⟨by with_unfolding_all decide,
   c3_antisymmetry_offplane ⟨-1, 0, 0⟩ ⟨0, 1, -1⟩ ⟨0, -1, -1⟩ ⟨0, 0, 1⟩
     (by with_unfolding_all decide)⟩

/-- C8 -/
theorem c8_winding_characterization (tA tB : Triangle) (s0 s1 : ℕ)
    (hA : nodupTri tA) (hB : nodupTri tB)
    (h0A : memTri tA s0) (h1A : memTri tA s1)
    (h0B : memTri tB s0) (h1B : memTri tB s1)
    (hne : s0 ≠ s1) :
    (sameWindingOrder tA tB (s0, s1) = true ↔
      (traverses tA s0 s1 ∧ traverses tB s1 s0) ∨
      (traverses tA s1 s0 ∧ traverses tB s0 s1)) ∧
    sameWindingOrder (0, 1, 2) (1, 2, 3) (2, 1) = false ∧
    sameWindingOrder (0, 1, 2) (3, 2, 1) (2, 1) = true := by
  refine ⟨?_, by decide, by decide⟩
  obtain ⟨a0, a1, a2⟩ := tA
  obtain ⟨b0, b1, b2⟩ := tB
  simp only [nodupTri, memTri] at hA hB h0A h1A h0B h1B
  obtain ⟨hA1, hA2, hA3⟩ := hA
  obtain ⟨hB1, hB2, hB3⟩ := hB
  rcases h0A with h0A | h0A | h0A <;> rcases h1A with h1A | h1A | h1A <;>
    rcases h0B with h0B | h0B | h0B <;> rcases h1B with h1B | h1B | h1B <;>
    subst_vars <;>
    (try simp_all [sameWindingOrder, swStep, swInner, tget, traverses, Option.orElse]) <;>
    (try split_ifs) <;> (try simp_all) <;> omega


/-- C8 witness -/
theorem c8_winding_characterization_witness :
    nodupTri ((0, 1, 2) : Triangle) ∧
    ((sameWindingOrder (0, 1, 2) (3, 2, 1) (2, 1) = true ↔
      (traverses (0, 1, 2) 2 1 ∧ traverses (3, 2, 1) 1 2) ∨
      (traverses (0, 1, 2) 1 2 ∧ traverses (3, 2, 1) 2 1)) ∧
     sameWindingOrder (0, 1, 2) (1, 2, 3) (2, 1) = false ∧
     sameWindingOrder (0, 1, 2) (3, 2, 1) (2, 1) = true) :=
  ⟨by decide,
   c8_winding_characterization (0, 1, 2) (3, 2, 1) 2 1 (by decide) (by decide)
     (by decide) (by decide) (by decide) (by decide) (by decide)⟩

/-- The bounding box pair (mn, mx) brackets the vertex v on every axis. -/
def bracket (mn mx v : Vec3) : Prop :=
  (mn.x ≤ v.x ∧ v.x ≤ mx.x) ∧ (mn.y ≤ v.y ∧ v.y ≤ mx.y) ∧ (mn.z ≤ v.z ∧ v.z ≤ mx.z)

instance (mn mx v : Vec3) : Decidable (bracket mn mx v) := by
  unfold bracket
  infer_instance

/-- Invariant of the LoadOBJ scan: the running box brackets every vertex
read so far, and is ordered once a vertex exists. -/
def loadInv (s : LoadState) : Prop :=
  (∀ v ∈ s.vertices, bracket s.minV s.maxV v) ∧
  (s.vertices ≠ [] → s.minV.x ≤ s.maxV.x ∧ s.minV.y ≤ s.maxV.y ∧ s.minV.z ≤ s.maxV.z)

theorem loadStep_inv (s : LoadState) (l : ObjLine) (s2 : LoadState)
    (hinv : loadInv s) (hstep : loadStep s l = .ok s2) : loadInv s2 := by
  match l with
  | .blank =>
    simp only [loadStep] at hstep
    cases hstep
    exact hinv
  | .cmd .hother args =>
    simp only [loadStep] at hstep
    cases hstep
    exact hinv
  | .cmd .hf args =>
    match args with
    | [a0, a1, a2] =>
      simp only [loadStep] at hstep
      cases hstep
      exact hinv
    | [] => exact (Except.noConfusion hstep)
    | [a0] => exact (Except.noConfusion hstep)
    | [a0, a1] => exact (Except.noConfusion hstep)
    | a0 :: a1 :: a2 :: a3 :: rest => exact (Except.noConfusion hstep)
  | .cmd .hv args =>
    match args with
    | [ax, ay, az] =>
      rw [show loadStep s (ObjLine.cmd .hv [ax, ay, az]) =
          .ok ⟨s.vertices ++ [⟨ax.float, ay.float, az.float⟩], s.triangles,
               ⟨min s.minV.x ax.float, min s.minV.y ay.float, min s.minV.z az.float⟩,
               ⟨max s.maxV.x ax.float, max s.maxV.y ay.float, max s.maxV.z az.float⟩,
               s.edges⟩ from rfl] at hstep
      cases hstep
      constructor
      · intro v hv
        rcases List.mem_append.mp hv with hv | hv
        · have hb := hinv.1 v hv
          refine ⟨⟨?_, ?_⟩, ⟨?_, ?_⟩, ⟨?_, ?_⟩⟩ <;>
            first
              | exact le_trans (min_le_left _ _) hb.1.1
              | exact le_trans hb.1.2 (le_max_left _ _)
              | exact le_trans (min_le_left _ _) hb.2.1.1
              | exact le_trans hb.2.1.2 (le_max_left _ _)
              | exact le_trans (min_le_left _ _) hb.2.2.1
              | exact le_trans hb.2.2.2 (le_max_left _ _)
        · rcases List.mem_singleton.mp hv with rfl
          exact ⟨⟨min_le_right _ _, le_max_right _ _⟩,
                 ⟨min_le_right _ _, le_max_right _ _⟩,
                 ⟨min_le_right _ _, le_max_right _ _⟩⟩
      · intro _
        refine ⟨?_, ?_, ?_⟩ <;>
          exact le_trans (min_le_right _ _) (le_max_right _ _)
    | [] => exact (Except.noConfusion hstep)
    | [a0] => exact (Except.noConfusion hstep)
    | [a0, a1] => exact (Except.noConfusion hstep)
    | a0 :: a1 :: a2 :: a3 :: rest => exact (Except.noConfusion hstep)

theorem loadGo_inv : ∀ (lines : List ObjLine) (s s2 : LoadState),
    loadInv s → loadGo s lines = .ok s2 → loadInv s2
  | [], s, s2, hinv, hgo => by
    simp only [loadGo] at hgo
    cases hgo
    exact hinv
  | l :: ls, s, s2, hinv, hgo => by
    simp only [loadGo] at hgo
    cases hstep : loadStep s l with
    | error e => rw [hstep] at hgo; cases hgo
    | ok s1 =>
      rw [hstep] at hgo
      exact loadGo_inv ls s1 s2 (loadStep_inv s l s1 hinv hstep) hgo

/-- C9 -/
theorem c9_bbox_brackets (lines : List ObjLine) (m : Mesh)
    (hok : loadOBJ lines = .ok m) :
    (∀ v ∈ m.Vertices, bracket m.Min m.Max v) ∧
    (m.Vertices ≠ [] →
      m.Min.x ≤ m.Max.x ∧ m.Min.y ≤ m.Max.y ∧ m.Min.z ≤ m.Max.z) := by
  unfold loadOBJ at hok
  split at hok
  · exact (Except.noConfusion hok)
  · rename_i s hgo
    have hinv : loadInv s := by
      apply loadGo_inv lines loadInit s _ hgo
      refine ⟨?_, ?_⟩
      · intro v hv
        simp [loadInit] at hv
      · intro h
        exact absurd rfl h
    split at hok
    · cases hok
      exact ⟨hinv.1, hinv.2⟩
    · exact (Except.noConfusion hok)

/-- C9 witness -/
theorem c9_bbox_brackets_witness :
    loadOBJ [ObjLine.cmd .hv [⟨1, true, 1, true⟩, ⟨2, true, 2, true⟩, ⟨3, true, 3, true⟩]] =
      .ok ⟨[⟨1, 2, 3⟩], [], ⟨1, 2, 3⟩, ⟨1, 2, 3⟩⟩ ∧
    (∀ v ∈ ([⟨1, 2, 3⟩] : List Vec3), bracket ⟨1, 2, 3⟩ ⟨1, 2, 3⟩ v) := by
  have h : loadOBJ [ObjLine.cmd .hv [⟨1, true, 1, true⟩, ⟨2, true, 2, true⟩, ⟨3, true, 3, true⟩]] =
      .ok ⟨[⟨1, 2, 3⟩], [], ⟨1, 2, 3⟩, ⟨1, 2, 3⟩⟩ := by
    with_unfolding_all rfl
  exact ⟨h, (c9_bbox_brackets _ _ h).1⟩

theorem loadGo_edges : ∀ (lines : List ObjLine) (s s2 : LoadState),
    loadGo s lines = .ok s2 → s2.edges = s.edges ++ edgesOfInput lines
  | [], s, s2, hgo => by
    simp only [loadGo] at hgo
    cases hgo
    simp [edgesOfInput, flatMapL]
  | l :: ls, s, s2, hgo => by
    simp only [loadGo] at hgo
    cases hstep : loadStep s l with
    | error e => rw [hstep] at hgo; exact (Except.noConfusion hgo)
    | ok s1 =>
      rw [hstep] at hgo
      have ih := loadGo_edges ls s1 s2 hgo
      have hse : s1.edges = s.edges ++ edgesOfInput [l] := by
        match l with
        | .blank =>
          cases hstep
          simp [edgesOfInput, flatMapL]
        | .cmd .hother args =>
          cases hstep
          simp [edgesOfInput, flatMapL]
        | .cmd .hv args =>
          match args with
          | [ax, ay, az] =>
            cases hstep
            simp [edgesOfInput, flatMapL]
          | [] => exact (Except.noConfusion hstep)
          | [a0] => exact (Except.noConfusion hstep)
          | [a0, a1] => exact (Except.noConfusion hstep)
          | a0 :: a1 :: a2 :: a3 :: rest => exact (Except.noConfusion hstep)
        | .cmd .hf args =>
          match args with
          | [a0, a1, a2] =>
            cases hstep
            simp [edgesOfInput, flatMapL]
          | [] => exact (Except.noConfusion hstep)
          | [a0] => exact (Except.noConfusion hstep)
          | [a0, a1] => exact (Except.noConfusion hstep)
          | a0 :: a1 :: a2 :: a3 :: rest => exact (Except.noConfusion hstep)
      rw [ih, hse]
      have : edgesOfInput (l :: ls) = edgesOfInput [l] ++ edgesOfInput ls := by
        simp [edgesOfInput, flatMapL]
      rw [this, List.append_assoc]

theorem loadGo_wf_ok : ∀ (lines : List ObjLine) (s : LoadState),
    wfInput lines = true → ∃ s2, loadGo s lines = .ok s2
  | [], s, _ => ⟨s, rfl⟩
  | l :: ls, s, hwf => by
    have hwfl : wfInput ls = true := by
      simp [wfInput] at hwf ⊢
      intro x hx
      exact hwf.2 x hx
    match l with
    | .blank =>
      obtain ⟨s2, h2⟩ := loadGo_wf_ok ls s hwfl
      exact ⟨s2, by simp only [loadGo, loadStep]; exact h2⟩
    | .cmd .hother args =>
      obtain ⟨s2, h2⟩ := loadGo_wf_ok ls s hwfl
      exact ⟨s2, by simp only [loadGo, loadStep]; exact h2⟩
    | .cmd .hv args =>
      have hlen : args.length = 3 := by
        simp [wfInput] at hwf
        exact hwf.1
      match args, hlen with
      | [ax, ay, az], _ =>
        obtain ⟨s2, h2⟩ := loadGo_wf_ok ls _ hwfl
        exact ⟨s2, by simp only [loadGo, loadStep]; exact h2⟩
    | .cmd .hf args =>
      have hlen : args.length = 3 := by
        simp [wfInput] at hwf
        exact hwf.1
      match args, hlen with
      | [a0, a1, a2], _ =>
        obtain ⟨s2, h2⟩ := loadGo_wf_ok ls _ hwfl
        exact ⟨s2, by simp only [loadGo, loadStep]; exact h2⟩

theorem loadOBJ_ok_eq (lines : List ObjLine) (s : LoadState)
    (hgo : loadGo loadInit lines = .ok s) :
    loadOBJ lines =
      if s.edges.all (fun k => s.edges.count k == 2) then
        .ok ⟨s.vertices, s.triangles, s.minV, s.maxV⟩
      else .error .notWatertight := by
  unfold loadOBJ
  rw [hgo]

/-- C7 -/
theorem c7_watertight_check (lines : List ObjLine) :
    ((∃ m, loadOBJ lines = .ok m) →
      ∀ k ∈ edgesOfInput lines, (edgesOfInput lines).count k = 2) ∧
    (wfInput lines = true →
      ¬ (∀ k ∈ edgesOfInput lines, (edgesOfInput lines).count k = 2) →
      loadOBJ lines = .error .notWatertight) := by
  constructor
  · rintro ⟨m, hok⟩ k hk
    unfold loadOBJ at hok
    split at hok
    · exact (Except.noConfusion hok)
    · rename_i s hgo
      have hedges : s.edges = edgesOfInput lines := by
        have := loadGo_edges lines loadInit s hgo
        simpa [loadInit] using this
      split at hok
      · rename_i hall
        rw [List.all_eq_true] at hall
        have := hall k (by rw [hedges]; exact hk)
        rw [hedges] at this
        exact beq_iff_eq.mp this
      · exact (Except.noConfusion hok)
  · intro hwf hbad
    obtain ⟨s, hgo⟩ := loadGo_wf_ok lines loadInit hwf
    have hedges : s.edges = edgesOfInput lines := by
      have := loadGo_edges lines loadInit s hgo
      simpa [loadInit] using this
    rw [loadOBJ_ok_eq lines s hgo, if_neg]
    intro hall
    apply hbad
    intro k hk
    rw [List.all_eq_true] at hall
    have := hall k (by rw [hedges]; exact hk)
    rw [hedges] at this
    exact beq_iff_eq.mp this

/-- C7 witness -/
theorem c7_watertight_check_witness :
    wfInput [ObjLine.cmd .hf [⟨0, false, 1, true⟩, ⟨0, false, 2, true⟩, ⟨0, false, 3, true⟩]] = true ∧
    ¬ (∀ k ∈ edgesOfInput [ObjLine.cmd .hf [⟨0, false, 1, true⟩, ⟨0, false, 2, true⟩, ⟨0, false, 3, true⟩]],
        (edgesOfInput [ObjLine.cmd .hf [⟨0, false, 1, true⟩, ⟨0, false, 2, true⟩, ⟨0, false, 3, true⟩]]).count k = 2) ∧
    loadOBJ [ObjLine.cmd .hf [⟨0, false, 1, true⟩, ⟨0, false, 2, true⟩, ⟨0, false, 3, true⟩]] =
      .error .notWatertight := by
  refine ⟨by decide, by decide, ?_⟩
  exact (c7_watertight_check _).2 (by decide) (by decide)

/-- The C6 counterexample input: one vertex line whose first numeric
token is malformed (ParseFloat fails, value 0, error discarded). -/
def c6Input : List ObjLine :=
  [ObjLine.cmd .hv [⟨0, false, 0, false⟩, ⟨1, true, 1, true⟩, ⟨2, true, 2, true⟩]]

/-- C6 counterexample -/
theorem c6_counterexample :
    (∃ args, ObjLine.cmd .hv args ∈ c6Input ∧ ∃ a ∈ args, a.floatOk = false) ∧
    loadOBJ c6Input = .ok ⟨[⟨0, 1, 2⟩], [], ⟨0, 1, 2⟩, ⟨0, 1, 2⟩⟩ := by
  constructor
  · exact ⟨[⟨0, false, 0, false⟩, ⟨1, true, 1, true⟩, ⟨2, true, 2, true⟩],
      by simp [c6Input], ⟨0, false, 0, false⟩, by simp, rfl⟩
  · with_unfolding_all rfl

/-- C6 amended -/
theorem c6_amended_no_numeric_failure (lines : List ObjLine)
    (hwf : wfInput lines = true)
    (hwt : ∀ k ∈ edgesOfInput lines, (edgesOfInput lines).count k = 2) :
    ∃ m, loadOBJ lines = .ok m := by
  obtain ⟨s, hgo⟩ := loadGo_wf_ok lines loadInit hwf
  have hedges : s.edges = edgesOfInput lines := by
    have := loadGo_edges lines loadInit s hgo
    simpa [loadInit] using this
  refine ⟨⟨s.vertices, s.triangles, s.minV, s.maxV⟩, ?_⟩
  rw [loadOBJ_ok_eq lines s hgo, if_pos]
  rw [List.all_eq_true]
  intro k hk
  rw [hedges] at hk ⊢
  exact beq_iff_eq.mpr (hwt k hk)

/-- C6 witness -/
theorem c6_amended_no_numeric_failure_witness :
    wfInput c6Input = true ∧ (∃ m, loadOBJ c6Input = .ok m) :=
  ⟨by decide, c6_amended_no_numeric_failure c6Input (by decide) (by decide)⟩

theorem mem_flatMapL {α β : Type} (f : α → List β) :
    ∀ (l : List α) (a : α) (b : β), a ∈ l → b ∈ f a → b ∈ flatMapL f l
  | [], a, b, ha, _ => by cases ha
  | x :: xs, a, b, ha, hb => by
    rcases List.mem_cons.mp ha with rfl | ha
    · exact List.mem_append.mpr (Or.inl hb)
    · exact List.mem_append.mpr (Or.inr (mem_flatMapL f xs a b ha hb))

theorem mem_intRange (lo hi k : ℤ) (h1 : lo ≤ k) (h2 : k ≤ hi) : k ∈ intRange lo hi := by
  unfold intRange
  refine List.mem_map.mpr ⟨(k - lo).toNat, List.mem_range.mpr (by omega), by omega⟩

theorem addTriangle_preserve :
    ∀ (cells : List ℕ) (L : ℕ → List ℕ) (t x cid : ℕ),
      x ∈ L cid → x ∈ addTriangle L cells t cid
  | [], L, t, x, cid, h => h
  | c :: cs, L, t, x, cid, h => by
    have step : addTriangle L (c :: cs) t =
        addTriangle (fun i => if i = c then L i ++ [t] else L i) cs t := rfl
    rw [step]
    apply addTriangle_preserve cs _ t x cid
    by_cases hc : cid = c
    · simp only [hc, if_pos rfl]
      exact List.mem_append.mpr (Or.inl (hc ▸ h))
    · simpa [hc] using h

theorem addTriangle_mem :
    ∀ (cells : List ℕ) (L : ℕ → List ℕ) (t cid : ℕ),
      cid ∈ cells → t ∈ addTriangle L cells t cid
  | [], L, t, cid, h => by cases h
  | c :: cs, L, t, cid, h => by
    have step : addTriangle L (c :: cs) t =
        addTriangle (fun i => if i = c then L i ++ [t] else L i) cs t := rfl
    rw [step]
    rcases List.mem_cons.mp h with rfl | h
    · apply addTriangle_preserve
      simp
    · exact addTriangle_mem cs _ t cid h

theorem gridGo_preserve (m : Mesh) (w h d : ℕ) (gmin gmax : Vec3) :
    ∀ (ts : List Triangle) (idx : ℕ) (L : ℕ → List ℕ) (x cid : ℕ),
      x ∈ L cid → x ∈ createTriangleListsGridGo m w h d gmin gmax ts idx L cid
  | [], idx, L, x, cid, hx => hx
  | t :: ts, idx, L, x, cid, hx => by
    simp only [createTriangleListsGridGo]
    exact gridGo_preserve m w h d gmin gmax ts (idx + 1) _ x cid
      (addTriangle_preserve _ L idx x cid hx)

theorem gridGo_mem (m : Mesh) (w h d : ℕ) (gmin gmax : Vec3) :
    ∀ (ts : List Triangle) (idx : ℕ) (L : ℕ → List ℕ) (k : ℕ) (tri : Triangle) (cid : ℕ),
      ts[k]? = some tri →
      cid ∈ triangleCellsGrid m w h d gmin gmax tri →
      (idx + k) ∈ createTriangleListsGridGo m w h d gmin gmax ts idx L cid
  | [], idx, L, k, tri, cid, hk, _ => by simp at hk
  | t :: ts, idx, L, 0, tri, cid, hk, hc => by
    simp at hk
    subst hk
    simp only [createTriangleListsGridGo, Nat.add_zero]
    exact gridGo_preserve m w h d gmin gmax ts (idx + 1) _ idx cid
      (addTriangle_mem _ L idx cid hc)
  | t :: ts, idx, L, k + 1, tri, cid, hk, hc => by
    simp at hk
    have ih := gridGo_mem m w h d gmin gmax ts (idx + 1)
      (addTriangle L (triangleCellsGrid m w h d gmin gmax t) idx) k tri cid hk hc
    simpa [createTriangleListsGridGo, Nat.add_assoc, Nat.add_comm 1 k] using ih

theorem floor_le_axis (B g M S : ℚ) (c : ℕ) (hspan : 0 < M - g) (hS : 0 < S)
    (hb : B < g + (c + 1) * ((M - g) / S)) :
    Int.floor ((B - g) / (M - g) * S) ≤ (c : ℤ) := by
  have hx : (B - g) / (M - g) * S < ((c : ℚ) + 1) := by
    rw [div_mul_eq_mul_div, div_lt_iff hspan]
    have h1 : B - g < (c + 1) * (M - g) / S := by
      rw [mul_div_assoc]
      linarith
    calc (B - g) * S < ((c + 1) * (M - g) / S) * S := by
          exact mul_lt_mul_of_pos_right h1 hS
      _ = ((c : ℚ) + 1) * (M - g) := by
          field_simp
  have := Int.floor_lt.mpr (by push_cast; linarith : (B - g) / (M - g) * S < ((c : ℤ) + 1 : ℤ))
  omega

theorem le_ceil_axis (B g M S : ℚ) (c : ℕ) (hspan : 0 < M - g) (hS : 0 < S)
    (hb : g + c * ((M - g) / S) ≤ B) :
    (c : ℤ) ≤ Int.ceil ((B - g) / (M - g) * S) := by
  have hx : ((c : ℚ)) ≤ (B - g) / (M - g) * S := by
    rw [div_mul_eq_mul_div, le_div_iff hspan]
    have h1 : (c : ℚ) * (M - g) / S ≤ B - g := by
      rw [mul_div_assoc]
      linarith
    calc (c : ℚ) * (M - g) = ((c : ℚ) * (M - g) / S) * S := by field_simp
      _ ≤ (B - g) * S := by exact mul_le_mul_of_nonneg_right h1 (le_of_lt hS)
  have h2 := le_trans hx (Int.le_ceil _)
  exact_mod_cast h2

/-- Cell (cx, cy, cz) of the grid, taken as the half-open box starting at
gridMin + c * cellSize with cellSize = (gridMax - gridMin) / (dim - 1) on
each axis, meets the closed box from bmin to bmax. -/
def cellBoxIntersects (gmin gmax : Vec3) (width height depth : ℕ) (cx cy cz : ℕ)
    (bmin bmax : Vec3) : Prop :=
  (bmin.x < gmin.x + (cx + 1) * ((gmax.x - gmin.x) / ((width : ℚ) - 1)) ∧
   gmin.x + cx * ((gmax.x - gmin.x) / ((width : ℚ) - 1)) ≤ bmax.x) ∧
  (bmin.y < gmin.y + (cy + 1) * ((gmax.y - gmin.y) / ((height : ℚ) - 1)) ∧
   gmin.y + cy * ((gmax.y - gmin.y) / ((height : ℚ) - 1)) ≤ bmax.y) ∧
  (bmin.z < gmin.z + (cz + 1) * ((gmax.z - gmin.z) / ((depth : ℚ) - 1)) ∧
   gmin.z + cz * ((gmax.z - gmin.z) / ((depth : ℚ) - 1)) ≤ bmax.z)

instance (gmin gmax : Vec3) (width height depth cx cy cz : ℕ) (bmin bmax : Vec3) :
    Decidable (cellBoxIntersects gmin gmax width height depth cx cy cz bmin bmax) := by
  unfold cellBoxIntersects
  infer_instance

/-- C2 -/
theorem c2_index_complete (m : Mesh) (width height depth : ℕ) (gmin gmax : Vec3)
    (t : ℕ) (tri : Triangle) (cx cy cz : ℕ)
    (hw : 2 ≤ width) (hh : 2 ≤ height) (hd : 2 ≤ depth)
    (hgx : gmin.x < gmax.x) (hgy : gmin.y < gmax.y) (hgz : gmin.z < gmax.z)
    (ht : m.Triangles[t]? = some tri)
    (hcx : cx < width) (hcy : cy < height) (hcz : cz < depth)
    (hint : cellBoxIntersects gmin gmax width height depth cx cy cz
      (getTriangleAABB (vert m tri.1) (vert m tri.2.1) (vert m tri.2.2)).1
      (getTriangleAABB (vert m tri.1) (vert m tri.2.1) (vert m tri.2.2)).2) :
    t ∈ createTriangleListsGrid m width height depth gmin gmax
      (cx + cy * width + cz * (width * height)) := by
  have hSx : (0 : ℚ) < (width : ℚ) - 1 := by
    have : (2 : ℚ) ≤ (width : ℚ) := by exact_mod_cast hw
    linarith
  have hSy : (0 : ℚ) < (height : ℚ) - 1 := by
    have : (2 : ℚ) ≤ (height : ℚ) := by exact_mod_cast hh
    linarith
  have hSz : (0 : ℚ) < (depth : ℚ) - 1 := by
    have : (2 : ℚ) ≤ (depth : ℚ) := by exact_mod_cast hd
    linarith
  have hspx : (0 : ℚ) < gmax.x - gmin.x := by linarith
  have hspy : (0 : ℚ) < gmax.y - gmin.y := by linarith
  have hspz : (0 : ℚ) < gmax.z - gmin.z := by linarith
  unfold createTriangleListsGrid
  have hmain : (cx + cy * width + cz * (width * height)) ∈
      triangleCellsGrid m width height depth gmin gmax tri := by
    unfold triangleCellsGrid cellsOfRangeGrid
    apply mem_flatMapL _ _ ((cz : ℤ))
    · apply mem_intRange
      · refine max_le_iff.mpr ⟨by omega, ?_⟩
        exact floor_le_axis _ _ _ _ cz hspz hSz hint.2.2.1
      · refine le_min_iff.mpr ⟨by omega, ?_⟩
        exact le_ceil_axis _ _ _ _ cz hspz hSz hint.2.2.2
    · apply mem_flatMapL _ _ ((cy : ℤ))
      · apply mem_intRange
        · refine max_le_iff.mpr ⟨by omega, ?_⟩
          exact floor_le_axis _ _ _ _ cy hspy hSy hint.2.1.1
        · refine le_min_iff.mpr ⟨by omega, ?_⟩
          exact le_ceil_axis _ _ _ _ cy hspy hSy hint.2.1.2
      · refine List.mem_map.mpr ⟨(cx : ℤ), ?_, ?_⟩
        · apply mem_intRange
          · refine max_le_iff.mpr ⟨by omega, ?_⟩
            exact floor_le_axis _ _ _ _ cx hspx hSx hint.1.1
          · refine le_min_iff.mpr ⟨by omega, ?_⟩
            exact le_ceil_axis _ _ _ _ cx hspx hSx hint.1.2
        · rw [show (cx : ℤ) + (cy : ℤ) * (width : ℤ) + (cz : ℤ) * ((width : ℤ) * (height : ℤ)) =
            ((cx + cy * width + cz * (width * height) : ℕ) : ℤ) by push_cast; ring]
          exact Int.toNat_natCast _
  have := gridGo_mem m width height depth gmin gmax m.Triangles 0 (fun _ => []) t tri
    (cx + cy * width + cz * (width * height)) ht hmain
  simpa using this

/-- C2 witness -/
theorem c2_index_complete_witness :
    ((⟨[⟨0, 0, 0⟩, ⟨1, 0, 0⟩, ⟨0, 1, 0⟩], [(0, 1, 2)], ⟨0, 0, 0⟩, ⟨1, 1, 1⟩⟩ :
        Mesh).Triangles[0]? = some (0, 1, 2)) ∧
    0 ∈ createTriangleListsGrid
      ⟨[⟨0, 0, 0⟩, ⟨1, 0, 0⟩, ⟨0, 1, 0⟩], [(0, 1, 2)], ⟨0, 0, 0⟩, ⟨1, 1, 1⟩⟩
      2 2 2 ⟨0, 0, 0⟩ ⟨1, 1, 1⟩ 0 := by
  refine ⟨by rfl, ?_⟩
  have h := c2_index_complete
    ⟨[⟨0, 0, 0⟩, ⟨1, 0, 0⟩, ⟨0, 1, 0⟩], [(0, 1, 2)], ⟨0, 0, 0⟩, ⟨1, 1, 1⟩⟩
    2 2 2 ⟨0, 0, 0⟩ ⟨1, 1, 1⟩ 0 (0, 1, 2) 0 0 0
    (by norm_num) (by norm_num) (by norm_num)
    (by with_unfolding_all decide) (by with_unfolding_all decide) (by with_unfolding_all decide)
    (by rfl) (by norm_num) (by norm_num) (by norm_num)
    (by with_unfolding_all decide)
  simpa using h

theorem mkSDist_sq_nonneg (s q : ℚ) (hq : 0 ≤ q) : 0 ≤ (mkSDist s q).sq := by
  unfold mkSDist
  split_ifs <;> simp [hq]

theorem distance_sq_nonneg (p a b c : Vec3) : 0 ≤ (distance p a b c).sq := by
  unfold distance
  split_ifs
  · apply mkSDist_sq_nonneg
    unfold min3q
    exact le_min (dot2_nonneg _) (le_min (dot2_nonneg _) (dot2_nonneg _))
  · apply mkSDist_sq_nonneg
    unfold planeSq
    apply div_nonneg (mul_self_nonneg _) (dot2_nonneg _)

theorem mkSDist_sq_zero (s q : ℚ) (h : (mkSDist s q).sq = 0) : mkSDist s q = ⟨1, 0⟩ := by
  unfold mkSDist at h ⊢
  split_ifs at h ⊢ with hq
  · rfl
  · exact absurd h hq

theorem distance_sq_zero (p a b c : Vec3) (h : (distance p a b c).sq = 0) :
    distance p a b c = ⟨1, 0⟩ := by
  unfold distance at h ⊢
  split_ifs at h ⊢ <;> exact mkSDist_sq_zero _ _ h

theorem triDistance_sq_nonneg (m : Mesh) (p : Vec3) (t : Triangle) :
    0 ≤ (triDistance m p t).sq := distance_sq_nonneg _ _ _ _

theorem updateMin_bound (best : Option SDist) (d : SDist)
    (hbest : ∀ b0, best = some b0 → 0 ≤ b0.sq) (hd : 0 ≤ d.sq) :
    ∃ u, updateMin best d = some u ∧ u.sq ≤ d.sq ∧ 0 ≤ u.sq ∧
      (∀ b0, best = some b0 → u.sq ≤ b0.sq) ∧ (u = d ∨ best = some u) := by
  match best with
  | none =>
    refine ⟨d, rfl, le_refl _, hd, ?_, Or.inl rfl⟩
    intro b0 h
    exact (Option.noConfusion h)
  | some b =>
    have hb : 0 ≤ b.sq := hbest b rfl
    by_cases hlt : d.sq < b.sq
    · refine ⟨d, ?_, le_refl _, hd, ?_, Or.inl rfl⟩
      · show (if d.sq < b.sq then some d else some b) = some d
        rw [if_pos hlt]
      · intro b0 h
        cases h
        exact le_of_lt hlt
    · refine ⟨b, ?_, le_of_not_lt hlt, hb, ?_, Or.inr rfl⟩
      · show (if d.sq < b.sq then some d else some b) = some b
        rw [if_neg hlt]
      · intro b0 h
        cases h
        exact le_refl _

theorem meshGo_some_le (m : Mesh) (p : Vec3) :
    ∀ (ts : List Triangle) (b0 : SDist), 0 ≤ b0.sq →
      ∃ b, meshDistanceGo m p ts (some b0) = some b ∧ b.sq ≤ b0.sq
  | [], b0, _ => ⟨b0, rfl, le_refl _⟩
  | t :: ts, b0, hb0 => by
    simp only [meshDistanceGo]
    by_cases hz : (triDistance m p t).sq = 0
    · rw [if_pos hz]
      refine ⟨mkSDist 1 0, rfl, ?_⟩
      simpa [mkSDist] using hb0
    · rw [if_neg hz]
      obtain ⟨u, hu, _, hu0, hule, _⟩ := updateMin_bound (some b0) (triDistance m p t)
        (by intro x h; cases h; exact hb0) (triDistance_sq_nonneg m p t)
      rw [hu]
      obtain ⟨b, hb, hbs⟩ := meshGo_some_le m p ts u hu0
      exact ⟨b, hb, le_trans hbs (hule b0 rfl)⟩

theorem meshGo_le (m : Mesh) (p : Vec3) :
    ∀ (ts : List Triangle) (best : Option SDist) (t : Triangle), t ∈ ts →
      (∀ b0, best = some b0 → 0 ≤ b0.sq) →
      ∃ b, meshDistanceGo m p ts best = some b ∧ b.sq ≤ (triDistance m p t).sq
  | [], best, t, ht, _ => by cases ht
  | t2 :: ts, best, t, ht, hbest => by
    simp only [meshDistanceGo]
    by_cases hz : (triDistance m p t2).sq = 0
    · rw [if_pos hz]
      refine ⟨mkSDist 1 0, rfl, ?_⟩
      have := triDistance_sq_nonneg m p t
      simpa [mkSDist] using this
    · rw [if_neg hz]
      obtain ⟨u, hu, hud, hu0, hule, _⟩ := updateMin_bound best (triDistance m p t2)
        hbest (triDistance_sq_nonneg m p t2)
      rw [hu]
      rcases List.mem_cons.mp ht with rfl | ht
      · obtain ⟨b, hb, hbs⟩ := meshGo_some_le m p ts u hu0
        exact ⟨b, hb, le_trans hbs hud⟩
      · exact meshGo_le m p ts (some u) t ht (by intro x h; cases h; exact hu0)

theorem meshDistance_le (m : Mesh) (p : Vec3) (i : ℕ) (hi : i < m.Triangles.length) :
    ∃ b, meshDistance m p = some b ∧
      b.sq ≤ (triDistance m p (m.Triangles.getD i (0, 0, 0))).sq := by
  unfold meshDistance
  apply meshGo_le m p m.Triangles none (m.Triangles.getD i (0, 0, 0))
  · rw [List.getD_eq_getElem m.Triangles (0, 0, 0) hi]
    exact List.getElem_mem hi
  · intro b0 h
    exact (Option.noConfusion h)

theorem foldl_step_error (m : Mesh) (p : Vec3) :
    ∀ (l : List ℕ) (r : SDist), l.foldl (stepTriangle m p) (.error r) = .error r
  | [], r => rfl
  | t :: l, r => foldl_step_error m p l r

theorem cellsFold_error (m : Mesh) (p : Vec3) (lists : ℕ → List ℕ) :
    ∀ (cl : List ℕ) (r : SDist),
      cl.foldl (fun st c => (lists c).foldl (stepTriangle m p) st) (.error r) = .error r
  | [], r => rfl
  | c :: cl, r => by
    simp only [List.foldl_cons, foldl_step_error]
    exact cellsFold_error m p lists cl r

/-- Invariant carried by the expanding shell search: the running minimum,
when set, is the signed distance of a triangle of the mesh, and it is set
as soon as foundTriangles is. -/
def qInv (m : Mesh) (p : Vec3) (s : LState) : Prop :=
  (s.minD = none ∨ ∃ i, i < m.Triangles.length ∧
    s.minD = some (triDistance m p (m.Triangles.getD i (0, 0, 0)))) ∧
  (s.found = true → ∃ d0, s.minD = some d0)

theorem stepTriangle_ok (m : Mesh) (p : Vec3) (s : LState) (t : ℕ) :
    stepTriangle m p (.ok s) t =
      (if t ∈ s.visited then .ok s
       else if (triDistance m p (m.Triangles.getD t (0, 0, 0))).sq = 0 then
         .error (mkSDist 1 0)
       else .ok ⟨t :: s.visited, true,
         updateMin s.minD (triDistance m p (m.Triangles.getD t (0, 0, 0)))⟩) := rfl

theorem step_qinv (m : Mesh) (p : Vec3) (s : LState) (t : ℕ)
    (ht : t < m.Triangles.length) (hq : qInv m p s) :
    (∀ r, stepTriangle m p (.ok s) t = .error r →
      ∃ i, i < m.Triangles.length ∧
        r = triDistance m p (m.Triangles.getD i (0, 0, 0))) ∧
    (∀ s2, stepTriangle m p (.ok s) t = .ok s2 → qInv m p s2) := by
  rw [stepTriangle_ok]
  by_cases hmem : t ∈ s.visited
  · rw [if_pos hmem]
    constructor
    · intro r h
      exact (Except.noConfusion h)
    · intro s2 h
      cases h
      exact hq
  · rw [if_neg hmem]
    by_cases hz : (triDistance m p (m.Triangles.getD t (0, 0, 0))).sq = 0
    · rw [if_pos hz]
      constructor
      · intro r h
        cases h
        refine ⟨t, ht, ?_⟩
        have h0 := distance_sq_zero p _ _ _ hz
        exact h0.symm
      · intro s2 h
        exact (Except.noConfusion h)
    · rw [if_neg hz]
      constructor
      · intro r h
        exact (Except.noConfusion h)
      · intro s2 h
        cases h
        obtain ⟨u, hu, _, _, _, hcase⟩ := updateMin_bound s.minD
          (triDistance m p (m.Triangles.getD t (0, 0, 0)))
          (by
            intro b0 hb0
            rcases hq.1 with hnone | ⟨i, hi, hsome⟩
            · rw [hnone] at hb0
              exact (Option.noConfusion hb0)
            · rw [hsome] at hb0
              cases hb0
              exact triDistance_sq_nonneg m p _)
          (triDistance_sq_nonneg m p _)
        constructor
        · right
          rcases hcase with rfl | hbu
          · exact ⟨t, ht, hu⟩
          · rcases hq.1 with hnone | ⟨i, hi, hsome⟩
            · rw [hnone] at hbu
              exact (Option.noConfusion hbu)
            · have hui : u = triDistance m p (m.Triangles.getD i (0, 0, 0)) :=
                Option.some.inj (hbu.symm.trans hsome)
              refine ⟨i, hi, ?_⟩
              rw [hu, hui]
        · intro _
          exact ⟨u, hu⟩

theorem foldTri_qinv (m : Mesh) (p : Vec3) :
    ∀ (l : List ℕ) (s : LState), (∀ t ∈ l, t < m.Triangles.length) → qInv m p s →
    (∀ r, l.foldl (stepTriangle m p) (.ok s) = .error r →
      ∃ i, i < m.Triangles.length ∧
        r = triDistance m p (m.Triangles.getD i (0, 0, 0))) ∧
    (∀ s2, l.foldl (stepTriangle m p) (.ok s) = .ok s2 → qInv m p s2)
  | [], s, _, hq => by
    constructor
    · intro r h
      exact (Except.noConfusion h)
    · intro s2 h
      cases h
      exact hq
  | t :: l, s, hv, hq => by
    have ht := hv t (List.mem_cons_self t l)
    obtain ⟨he, hk⟩ := step_qinv m p s t ht hq
    simp only [List.foldl_cons]
    cases hst : stepTriangle m p (.ok s) t with
    | error r =>
      rw [foldl_step_error]
      constructor
      · intro r2 h
        cases h
        exact he r hst
      · intro s2 h
        exact (Except.noConfusion h)
    | ok s1 =>
      exact foldTri_qinv m p l s1 (fun x hx => hv x (List.mem_cons_of_mem t hx))
        (hk s1 hst)

theorem foldCells_qinv (m : Mesh) (p : Vec3) (lists : ℕ → List ℕ)
    (hvalid : ∀ c, ∀ t ∈ lists c, t < m.Triangles.length) :
    ∀ (cl : List ℕ) (s : LState), qInv m p s →
    (∀ r, cl.foldl (fun st c => (lists c).foldl (stepTriangle m p) st) (.ok s)
        = .error r →
      ∃ i, i < m.Triangles.length ∧
        r = triDistance m p (m.Triangles.getD i (0, 0, 0))) ∧
    (∀ s2, cl.foldl (fun st c => (lists c).foldl (stepTriangle m p) st) (.ok s)
        = .ok s2 → qInv m p s2)
  | [], s, hq => by
    constructor
    · intro r h
      exact (Except.noConfusion h)
    · intro s2 h
      cases h
      exact hq
  | c :: cl, s, hq => by
    obtain ⟨he, hk⟩ := foldTri_qinv m p (lists c) s (hvalid c) hq
    simp only [List.foldl_cons]
    cases hst : (lists c).foldl (stepTriangle m p) (.ok s) with
    | error r =>
      rw [cellsFold_error]
      constructor
      · intro r2 h
        cases h
        exact he r hst
      · intro s2 h
        exact (Except.noConfusion h)
    | ok s1 =>
      exact foldCells_qinv m p lists hvalid cl s1 (hk s1 hst)

theorem loopGo_qinv (m : Mesh) (p : Vec3) (depth height width x y z : ℕ)
    (lists : ℕ → List ℕ)
    (hvalid : ∀ c, ∀ t ∈ lists c, t < m.Triangles.length) :
    ∀ (fuel layer : ℕ) (s : LState) (r : SDist), qInv m p s →
      loopGo m p depth height width x y z lists fuel layer s = some (some r) →
      ∃ i, i < m.Triangles.length ∧
        r = triDistance m p (m.Triangles.getD i (0, 0, 0))
  | 0, _, _, r, _, h => by exact (Option.noConfusion h)
  | fuel + 1, layer, s, r, hq, h => by
    rw [loopGo] at h
    by_cases hf : s.found
    · rw [if_pos hf] at h
      have hmr : s.minD = some r := Option.some.inj h
      rcases hq.1 with hnone | ⟨i, hi, hsome⟩
      · rw [hnone] at hmr
        exact (Option.noConfusion hmr)
      · refine ⟨i, hi, ?_⟩
        rw [hsome] at hmr
        exact (Option.some.inj hmr).symm
    · rw [if_neg hf] at h
      obtain ⟨he, hk⟩ := foldCells_qinv m p lists hvalid _ s hq
      cases hscan : scanLayer m p depth height width x y z lists layer s with
      | error r2 =>
        rw [hscan] at h
        have : r2 = r := Option.some.inj (Option.some.inj h)
        subst this
        exact he r2 hscan
      | ok s2 =>
        rw [hscan] at h
        exact loopGo_qinv m p depth height width x y z lists hvalid fuel
          (layer + 1) s2 r (hk s2 hscan) h

theorem addTriangle_sub (m0 : ℕ) :
    ∀ (cells : List ℕ) (L : ℕ → List ℕ) (c x : ℕ),
      x ∈ addTriangle L cells m0 c → x ∈ L c ∨ x = m0
  | [], L, c, x, h => Or.inl h
  | c0 :: cells, L, c, x, h => by
    simp only [addTriangle, List.foldl_cons] at h
    rcases addTriangle_sub m0 cells _ c x h with h2 | h2
    · by_cases hc : c = c0
      · rw [if_pos hc] at h2
        rcases List.mem_append.mp h2 with h3 | h3
        · exact Or.inl h3
        · exact Or.inr (List.mem_singleton.mp h3)
      · rw [if_neg hc] at h2
        exact Or.inl h2
    · exact Or.inr h2

theorem listsGo_sub (m : Mesh) (w h d : ℕ) :
    ∀ (ts : List Triangle) (idx : ℕ) (L : ℕ → List ℕ) (c x : ℕ),
      x ∈ createTriangleListsGo m w h d ts idx L c →
      x ∈ L c ∨ (idx ≤ x ∧ x < idx + ts.length)
  | [], idx, L, c, x, hmem => Or.inl hmem
  | t :: ts, idx, L, c, x, hmem => by
    rw [createTriangleListsGo] at hmem
    rcases listsGo_sub m w h d ts (idx + 1) _ c x hmem with h2 | h2
    · rcases addTriangle_sub idx _ L c x h2 with h3 | h3
      · exact Or.inl h3
      · right
        subst h3
        simp
    · right
      simp only [List.length_cons]
      omega

theorem createTriangleLists_valid (m : Mesh) (w h d c x : ℕ)
    (hmem : x ∈ createTriangleLists m w h d c) : x < m.Triangles.length := by
  rcases listsGo_sub m w h d m.Triangles 0 (fun _ => []) c x hmem with h2 | h2
  · cases h2
  · omega

/-- C1: when the accelerated shell search terminates with a value, that
value is the exact signed distance of some triangle of the mesh and its
squared magnitude dominates the brute-force minimum; equality with the
brute force result can fail (see the counterexample). -/
theorem c1_accel_refines (m : Mesh) (p : Vec3)
    (depth height width x y z w1 h1 d1 fuel : ℕ) (r : SDist)
    (hrun : distanceUsingListFuel m p depth height width x y z
      (createTriangleLists m w1 h1 d1) fuel = some (some r)) :
    (∃ i, i < m.Triangles.length ∧
      r = triDistance m p (m.Triangles.getD i (0, 0, 0))) ∧
    ∃ b, meshDistance m p = some b ∧ b.sq ≤ r.sq := by
  have hvalid : ∀ c, ∀ t ∈ createTriangleLists m w1 h1 d1 c,
      t < m.Triangles.length :=
    fun c t ht => createTriangleLists_valid m w1 h1 d1 c t ht
  have hq0 : qInv m p ⟨[], false, none⟩ := by
    constructor
    · exact Or.inl rfl
    · intro hfd
      exact (Bool.noConfusion hfd)
  obtain ⟨i, hi, hr⟩ := loopGo_qinv m p depth height width x y z
    (createTriangleLists m w1 h1 d1) hvalid fuel 0 ⟨[], false, none⟩ r hq0 hrun
  refine ⟨⟨i, hi, hr⟩, ?_⟩
  obtain ⟨b, hb, hble⟩ := meshDistance_le m p i hi
  refine ⟨b, hb, ?_⟩
  rw [hr]
  exact hble

/-- Watertight mesh of four disjoint tetrahedra in the box [0,4]^3,
queried from the origin. -/
def cexMesh : Mesh :=
  ⟨[⟨9/4, 9/4, 9/4⟩, ⟨11/4, 9/4, 9/4⟩, ⟨9/4, 11/4, 9/4⟩, ⟨9/4, 9/4, 11/4⟩,
    ⟨1/4, 1/4, 13/4⟩, ⟨3/4, 1/4, 13/4⟩, ⟨1/4, 3/4, 13/4⟩, ⟨1/4, 1/4, 15/4⟩,
    ⟨0, 4, 4⟩, ⟨3/4, 13/4, 4⟩, ⟨3/4, 4, 13/4⟩, ⟨0, 13/4, 13/4⟩,
    ⟨4, 0, 0⟩, ⟨7/2, 3/4, 0⟩, ⟨7/2, 0, 3/4⟩, ⟨4, 3/4, 3/4⟩],
   [(0, 2, 1), (0, 1, 3), (0, 3, 2), (1, 2, 3),
    (4, 6, 5), (4, 5, 7), (4, 7, 6), (5, 6, 7),
    (8, 10, 9), (8, 9, 11), (8, 11, 10), (9, 10, 11),
    (12, 14, 13), (12, 13, 15), (12, 15, 14), (13, 14, 15)],
   ⟨0, 0, 0⟩, ⟨4, 4, 4⟩⟩

/-- C1 counterexample: on cexMesh queried at the origin the accelerated
search stops one shell too early and returns the distance 243/16 (squared)
of a triangle of the nearest-but-one tetrahedron, while the brute force
scan returns 171/16; the two results differ. -/
theorem c1_counterexample :
    meshDistance cexMesh ⟨0, 0, 0⟩ = some ⟨1, 171 / 16⟩ ∧
    distanceUsingListFuel cexMesh ⟨0, 0, 0⟩ 4 4 4 0 0 0
      (createTriangleLists cexMesh 4 4 4) 5 = some (some ⟨1, 243 / 16⟩) ∧
    (⟨1, 171 / 16⟩ : SDist) ≠ ⟨1, 243 / 16⟩ := by
  refine ⟨?_, ?_, ?_⟩
  · with_unfolding_all decide
  · with_unfolding_all decide
  · intro hcontra
    have : (171 / 16 : ℚ) = 243 / 16 := congrArg SDist.sq hcontra
    norm_num at this

/-- C1 witness -/
theorem c1_accel_refines_witness :
    (∃ i, i < cexMesh.Triangles.length ∧
      (⟨1, 243 / 16⟩ : SDist) =
        triDistance cexMesh ⟨0, 0, 0⟩ (cexMesh.Triangles.getD i (0, 0, 0))) ∧
    ∃ b, meshDistance cexMesh ⟨0, 0, 0⟩ = some b ∧
      b.sq ≤ (⟨1, 243 / 16⟩ : SDist).sq :=
  c1_accel_refines cexMesh ⟨0, 0, 0⟩ 4 4 4 0 0 0 4 4 4 5 ⟨1, 243 / 16⟩
    (by with_unfolding_all decide)

theorem mem_natRange (lo hi k : ℕ) (h1 : lo ≤ k) (h2 : k ≤ hi) : k ∈ natRange lo hi := by
  unfold natRange
  refine List.mem_map.mpr ⟨k - lo, List.mem_range.mpr (by omega), by omega⟩

/-- The linear cell indices visited by one layer scan. -/
def scanCells (depth height width x y z layer : ℕ) : List ℕ :=
  flatMapL (fun zz =>
    flatMapL (fun yy =>
      (natRange (x - layer) (min (x + layer) (width - 1))).map (fun xx =>
        xx + yy * width + zz * (width * height)))
      (natRange (y - layer) (min (y + layer) (height - 1))))
    (natRange (z - layer) (min (z + layer) (depth - 1)))

theorem scanLayer_eq (m : Mesh) (p : Vec3) (depth height width x y z : ℕ)
    (lists : ℕ → List ℕ) (layer : ℕ) (s : LState) :
    scanLayer m p depth height width x y z lists layer s =
      (scanCells depth height width x y z layer).foldl
        (fun st c => (lists c).foldl (stepTriangle m p) st) (.ok s) := rfl

theorem coverage (width height depth x y z cx cy cz layer : ℕ)
    (hx : x < width) (hy : y < height) (hz : z < depth)
    (hcx : cx < width) (hcy : cy < height) (hcz : cz < depth)
    (hl : max width (max height depth) ≤ layer) :
    cx + cy * width + cz * (width * height) ∈
      scanCells depth height width x y z layer := by
  unfold scanCells
  refine mem_flatMapL _ _ cz _ (mem_natRange _ _ _ (by omega) (by omega)) ?_
  refine mem_flatMapL _ _ cy _ (mem_natRange _ _ _ (by omega) (by omega)) ?_
  exact List.mem_map.mpr ⟨cx, mem_natRange _ _ _ (by omega) (by omega), rfl⟩

/-- A loop state past the point of no return: the scan already errored,
or foundTriangles is set. -/
def stuck (st : Except SDist LState) : Prop :=
  (∃ r, st = .error r) ∨ (∃ s, st = .ok s ∧ s.found = true)

theorem step_sticky (m : Mesh) (p : Vec3) (st : Except SDist LState) (t : ℕ)
    (h : stuck st) : stuck (stepTriangle m p st t) := by
  rcases h with ⟨r, rfl⟩ | ⟨s, rfl, hf⟩
  · exact Or.inl ⟨r, rfl⟩
  · rw [stepTriangle_ok]
    by_cases hmem : t ∈ s.visited
    · rw [if_pos hmem]
      exact Or.inr ⟨s, rfl, hf⟩
    · rw [if_neg hmem]
      by_cases hz : (triDistance m p (m.Triangles.getD t (0, 0, 0))).sq = 0
      · rw [if_pos hz]
        exact Or.inl ⟨_, rfl⟩
      · rw [if_neg hz]
        exact Or.inr ⟨_, rfl, rfl⟩

theorem foldTri_sticky (m : Mesh) (p : Vec3) :
    ∀ (l : List ℕ) (st : Except SDist LState), stuck st →
      stuck (l.foldl (stepTriangle m p) st)
  | [], st, h => h
  | t :: l, st, h =>
    foldTri_sticky m p l (stepTriangle m p st t) (step_sticky m p st t h)

theorem foldCells_sticky (m : Mesh) (p : Vec3) (lists : ℕ → List ℕ) :
    ∀ (cl : List ℕ) (st : Except SDist LState), stuck st →
      stuck (cl.foldl (fun st2 c => (lists c).foldl (stepTriangle m p) st2) st)
  | [], st, h => h
  | c :: cl, st, h =>
    foldCells_sticky m p lists cl _ (foldTri_sticky m p (lists c) st h)

theorem foldTri_init (m : Mesh) (p : Vec3) :
    ∀ (l : List ℕ), l ≠ [] →
      stuck (l.foldl (stepTriangle m p) (.ok ⟨[], false, none⟩))
  | [], h => absurd rfl h
  | t :: l, _ => by
    simp only [List.foldl_cons]
    rw [stepTriangle_ok]
    rw [if_neg (List.not_mem_nil t)]
    by_cases hz : (triDistance m p (m.Triangles.getD t (0, 0, 0))).sq = 0
    · rw [if_pos hz, foldl_step_error]
      exact Or.inl ⟨_, rfl⟩
    · rw [if_neg hz]
      exact foldTri_sticky m p l _ (Or.inr ⟨_, rfl, rfl⟩)

theorem fold_empty_lists (m : Mesh) (p : Vec3) (lists : ℕ → List ℕ) :
    ∀ (cl : List ℕ) (s : LState), (∀ c ∈ cl, lists c = []) →
      cl.foldl (fun st c => (lists c).foldl (stepTriangle m p) st) (.ok s) = .ok s
  | [], s, _ => rfl
  | c :: cl, s, hall => by
    simp only [List.foldl_cons]
    rw [hall c (List.mem_cons_self c cl)]
    exact fold_empty_lists m p lists cl s
      (fun c2 hc2 => hall c2 (List.mem_cons_of_mem c hc2))

theorem foldCells_init (m : Mesh) (p : Vec3) (lists : ℕ → List ℕ) :
    ∀ (cl : List ℕ), (∀ c ∈ cl, lists c = []) ∨
      stuck (cl.foldl (fun st c => (lists c).foldl (stepTriangle m p) st)
        (.ok ⟨[], false, none⟩))
  | [] => Or.inl (fun c hc => absurd hc (List.not_mem_nil c))
  | c :: cl => by
    by_cases hc : lists c = []
    · rcases foldCells_init m p lists cl with hall | hstuck
      · left
        intro c2 hc2
        rcases List.mem_cons.mp hc2 with rfl | h2
        · exact hc
        · exact hall c2 h2
      · right
        simp only [List.foldl_cons]
        rw [hc]
        exact hstuck
    · right
      simp only [List.foldl_cons]
      exact foldCells_sticky m p lists cl _ (foldTri_init m p (lists c) hc)

theorem loopGo_term (m : Mesh) (p : Vec3) (width height depth x y z cx cy cz : ℕ)
    (lists : ℕ → List ℕ)
    (hx : x < width) (hy : y < height) (hz : z < depth)
    (hcx : cx < width) (hcy : cy < height) (hcz : cz < depth)
    (hne : lists (cx + cy * width + cz * (width * height)) ≠ []) :
    ∀ (fuel layer : ℕ), layer ≤ max width (max height depth) →
      max width (max height depth) + 2 ≤ fuel + layer →
      (loopGo m p depth height width x y z lists fuel layer
        ⟨[], false, none⟩).isSome
  | 0, layer, h1, h2 => by omega
  | fuel + 1, layer, h1, h2 => by
    rw [loopGo]
    rw [if_neg (by exact Bool.false_ne_true)]
    rcases foldCells_init m p lists (scanCells depth height width x y z layer)
      with hall | hstuck
    · have hlt : layer < max width (max height depth) := by
        rcases Nat.lt_or_ge layer (max width (max height depth)) with h | h
        · exact h
        · exact absurd
            (hall _ (coverage width height depth x y z cx cy cz layer
              hx hy hz hcx hcy hcz h)) hne
      rw [scanLayer_eq, fold_empty_lists m p lists _ _ hall]
      exact loopGo_term m p width height depth x y z cx cy cz lists
        hx hy hz hcx hcy hcz hne fuel (layer + 1) (by omega) (by omega)
    · rcases hstuck with ⟨r, hr⟩ | ⟨s2, hs2, hf⟩
      · rw [scanLayer_eq, hr]
        rfl
      · rw [scanLayer_eq, hs2]
        show (loopGo m p depth height width x y z lists fuel (layer + 1) s2).isSome
        have hfuel1 : ∃ f, fuel = f + 1 := ⟨fuel - 1, by omega⟩
        obtain ⟨f, rfl⟩ := hfuel1
        rw [loopGo]
        rw [if_pos hf]
        rfl

/-- C4: the expanding shell loop terminates when the start cell is in
bounds and some in-bounds cell of the spatial index is nonempty, within
max(width, height, depth) + 2 layer iterations; the unconditional claim
fails because createTriangleLists can index a triangle into no cell at
all (see the counterexample). -/
theorem c4_terminates (m : Mesh) (p : Vec3)
    (width height depth x y z cx cy cz fuel : ℕ) (lists : ℕ → List ℕ)
    (hx : x < width) (hy : y < height) (hz : z < depth)
    (hcx : cx < width) (hcy : cy < height) (hcz : cz < depth)
    (hne : lists (cx + cy * width + cz * (width * height)) ≠ [])
    (hfuel : max width (max height depth) + 2 ≤ fuel) :
    (distanceUsingListFuel m p depth height width x y z lists fuel).isSome := by
  unfold distanceUsingListFuel
  exact loopGo_term m p width height depth x y z cx cy cz lists
    hx hy hz hcx hcy hcz hne fuel 0 (by omega) (by omega)

/-- C4 witness -/
theorem c4_terminates_witness :
    (distanceUsingListFuel
      ⟨[⟨0, 0, 0⟩, ⟨1, 0, 0⟩, ⟨0, 1, 0⟩], [(0, 1, 2)], ⟨0, 0, 0⟩, ⟨1, 1, 1⟩⟩
      ⟨5, 5, 5⟩ 1 1 1 0 0 0 (fun _ => [0]) 3).isSome :=
  c4_terminates
    ⟨[⟨0, 0, 0⟩, ⟨1, 0, 0⟩, ⟨0, 1, 0⟩], [(0, 1, 2)], ⟨0, 0, 0⟩, ⟨1, 1, 1⟩⟩
    ⟨5, 5, 5⟩ 1 1 1 0 0 0 0 0 0 3 (fun _ => [0])
    (by norm_num) (by norm_num) (by norm_num)
    (by norm_num) (by norm_num) (by norm_num)
    (by with_unfolding_all decide) (by norm_num)

/-- Two triangles on the boundary of the bounding box [0,2]x[0,2]x[0,1]:
one in the plane z = 1 = Max.z, one in the plane x = 2 = Max.x. -/
def cex4Mesh : Mesh :=
  ⟨[⟨0, 0, 1⟩, ⟨2, 0, 1⟩, ⟨0, 2, 1⟩, ⟨2, 0, 0⟩, ⟨2, 2, 0⟩, ⟨2, 0, 1⟩],
   [(0, 1, 2), (3, 4, 5)], ⟨0, 0, 0⟩, ⟨2, 2, 1⟩⟩

theorem loopGo_empty_none (m : Mesh) (p : Vec3) (depth height width x y z : ℕ) :
    ∀ (fuel layer : ℕ),
      loopGo m p depth height width x y z (fun _ => []) fuel layer
        ⟨[], false, none⟩ = none
  | 0, _ => rfl
  | fuel + 1, layer => by
    rw [loopGo]
    rw [if_neg (by exact Bool.false_ne_true)]
    rw [scanLayer_eq,
      fold_empty_lists m p (fun _ => []) _ _ (fun c _ => rfl)]
    exact loopGo_empty_none m p depth height width x y z fuel (layer + 1)

/-- C4 counterexample: cex4Mesh has two triangles, yet createTriangleLists
on the 2x2x2 grid puts them in no cell (their boxes start at cell index 2,
past the clamp), so the shell loop never finds a triangle and runs forever:
the fueled loop returns none for every fuel. -/
theorem c4_counterexample :
    (cex4Mesh.Triangles ≠ [] ∧
      createTriangleLists cex4Mesh 2 2 2 = fun _ => []) ∧
    (∀ fuel, distanceUsingListFuel cex4Mesh ⟨0, 0, 0⟩ 2 2 2 0 0 0
      (createTriangleLists cex4Mesh 2 2 2) fuel = none) := by
  have hl : createTriangleLists cex4Mesh 2 2 2 = fun _ => [] := by
    with_unfolding_all rfl
  refine ⟨⟨by with_unfolding_all decide, hl⟩, ?_⟩
  intro fuel
  rw [hl]
  exact loopGo_empty_none cex4Mesh ⟨0, 0, 0⟩ 2 2 2 0 0 0 fuel 0

end M2D

-- sanity checks against the literal test cases (exact values)
example :
    M2D.distance ⟨-1, 0, 0⟩ ⟨0, 1, -1⟩ ⟨0, -1, -1⟩ ⟨0, 0, 1⟩ =
      ⟨1, 6/5⟩ := by with_unfolding_all decide

example :
    M2D.distance ⟨-1, 0, 0⟩ ⟨0, -1, -1⟩ ⟨0, 1, -1⟩ ⟨0, 0, 1⟩ =
      ⟨-1, 6/5⟩ := by with_unfolding_all decide

example :
    M2D.distance ⟨0, 1, -1⟩ ⟨0, -1, -1⟩ ⟨0, 1, -1⟩ ⟨0, 0, 1⟩ =
      ⟨1, 0⟩ := by with_unfolding_all decide

example :
    M2D.distance ⟨0, 3, -1⟩ ⟨0, -1, -1⟩ ⟨0, 1, -1⟩ ⟨0, 0, 1⟩ =
      ⟨1, 4⟩ := by with_unfolding_all decide
